import Mathlib

/-!
Shallow embedding of the `datastruct-rs` derive-macro core
(`src/datastruct_derive/src/{config/{struct_config,field_config},cmp,ops,generate}.rs`
and `src/datastruct_derive/src/utils/{collect_meta,synerr}.rs`).

The core consumes an already-tokenized attribute tree (`syn::Meta`) and
produces a plan of generated members.  Host-language expressions
(`syn::Expr`) are opaque to the core: it never interprets them, it only
carries them around, so they are modelled as opaque strings produced by an
external parse function that is passed in as a parameter.
-/

namespace DS

/-- `syn::Lit`, restricted to the literal kinds the resolver inspects
(string, integer, boolean); every other literal kind is collapsed into
`other`, which every branch of the source treats as "invalid shape". -/
inductive Lit where
  | str (s : String)
  | int (n : Int)
  | bool (b : Bool)
  | other
deriving DecidableEq

/-- `syn::Meta` together with `syn::NestedMeta`, flattened into one tree:
`path` / `nameValue` / `list` are `Meta::Path` / `Meta::NameValue` /
`Meta::List` whose path is a single identifier, and `litArg` is a bare
`NestedMeta::Lit` occurring inside a list.  Multi-segment paths (for which
`path.get_ident()` returns `None` and the entry is skipped or rejected)
are not representable; none of the recognized options uses them. -/
inductive Meta where
  | path (name : String)
  | nameValue (name : String) (lit : Lit)
  | list (name : String) (nested : List Meta)
  | litArg (lit : Lit)

/-- The name of a meta entry (`meta.path().is_ident(..)`); `litArg` has none. -/
def Meta.name? : Meta → Option String
  | .path n => some n
  | .nameValue n _ => some n
  | .list n _ => some n
  | .litArg _ => none

/-- `syn::Error`: a compile diagnostic.  `Error::combine` concatenates, so a
combined error is modelled as the list of its messages in combination
order.  Source spans are dropped. -/
abbrev SynError := List String

/-- `utils/synerr.rs` `SynErrorExt::update_or_combine` on `Option<syn::Error>`. -/
def updateOrCombine : Option SynError → SynError → Option SynError
  | none, e => some e
  | some e0, e => some (e0 ++ e)

/-- Close out an accumulated `Option<syn::Error>`: `err.ok_or(()).swap()?`. -/
def closeErr (err : Option SynError) (a : α) : Except SynError α :=
  match err with
  | some e => .error e
  | none => .ok a

/-- An opaque host-language expression (`syn::Expr`).  The core never looks
inside; `src` is the concrete text it was parsed from. -/
structure DExpr where
  src : String
deriving DecidableEq

/-- The external expression parser (`syn::parse_str::<Expr>`), a collaborator
of the core; it may reject its input with a diagnostic. -/
abbrev ExprParse := String → Except SynError DExpr

/-- An external parse function that accepts every input; used to instantiate
theorems at concrete inputs where the template text is well-formed. -/
def pexOk : ExprParse := fun s => .ok ⟨s⟩

/-- `config/field_config.rs` `SetterType`. -/
inductive SetterType where
  | full
  | set
  | withSelf
  | no
deriving DecidableEq

/-- `#[derive(Default)]`: `#[default] Full`. -/
def SetterType.init : SetterType := .full

/-- `SetterType::from_str`. -/
def SetterType.fromStr : String → Option SetterType
  | "full" | "all" => some .full
  | "set" => some .set
  | "with" => some .withSelf
  | "no" => some .no
  | _ => none

/-- `config/field_config.rs` `GetterType`. -/
inductive GetterType where
  | full
  | move
  | get
  | no
deriving DecidableEq

/-- `#[derive(Default)]`: `#[default] Get`. -/
def GetterType.init : GetterType := .get

/-- `GetterType::from_str`. -/
def GetterType.fromStr : String → Option GetterType
  | "full" | "all" => some .full
  | "move" => some .move
  | "get" => some .get
  | "no" => some .no
  | _ => none

/-- `cmp.rs` `StructCmpConfig`. -/
structure StructCmpConfig where
  partial_eq : Bool
  eq : Bool
  partial_ord : Bool
  ord : Bool
deriving DecidableEq

/-- `#[derive(Default)]` for `StructCmpConfig`: all `false`. -/
def StructCmpConfig.init : StructCmpConfig :=
  ⟨false, false, false, false⟩

/-- `cmp.rs` `FieldCmpConfig`.  `ord`/`partial_ord` hold the field's rank
(`isize`) when the field participates in the corresponding chain. -/
structure FieldCmpConfig where
  eq : Bool
  ord : Option Int
  partial_ord : Option Int
deriving DecidableEq

/-- `impl Default for FieldCmpConfig`: equality participation on, no ranks. -/
def FieldCmpConfig.init : FieldCmpConfig :=
  ⟨true, none, none⟩

/-- `ops.rs` `OpsType`: the four operator families. -/
inductive OpsType where
  | add
  | sub
  | mul
  | div
deriving DecidableEq

/-- `OpsType::from_str`. -/
def OpsType.fromStr : String → Option OpsType
  | "add" => some .add
  | "sub" => some .sub
  | "mul" => some .mul
  | "div" => some .div
  | _ => none

/-- `ops.rs` `OpsAssignableType`: which forms a family generates. -/
inductive OpsAssignableType where
  | both
  | assign
  | plain
deriving DecidableEq

/-- `#[derive(Default)]`: `#[default] Plain`. -/
def OpsAssignableType.init : OpsAssignableType := .plain

/-- `OpsAssignableType::from_str`. -/
def OpsAssignableType.fromStr : String → Option OpsAssignableType
  | "both" | "all" => some .both
  | "assign" => some .assign
  | "plain" | "default" => some .plain
  | _ => none

/-- `ops.rs` `StructOpsConfig`: the structure-level default policy per family. -/
structure StructOpsConfig where
  add : Option OpsAssignableType
  sub : Option OpsAssignableType
  mul : Option OpsAssignableType
  div : Option OpsAssignableType
deriving DecidableEq

/-- `#[derive(Default)]` for `StructOpsConfig`: nothing declared. -/
def StructOpsConfig.init : StructOpsConfig :=
  ⟨none, none, none, none⟩

/-- Slot lookup by family. -/
def StructOpsConfig.famGet (c : StructOpsConfig) : OpsType → Option OpsAssignableType
  | .add => c.add
  | .sub => c.sub
  | .mul => c.mul
  | .div => c.div

/-- `if let Some(v) = other { self = Some(v) }`: `other` overrides when set. -/
def overrideOpt : Option α → Option α → Option α
  | old, none => old
  | _, some v => some v

/-- `StructOpsConfig::mut_and`: families set in `other` override `self`. -/
def StructOpsConfig.mutAnd (c other : StructOpsConfig) : StructOpsConfig where
  add := overrideOpt c.add other.add
  sub := overrideOpt c.sub other.sub
  mul := overrideOpt c.mul other.mul
  div := overrideOpt c.div other.div

/-- The `HashMap<OpsType, Option<OpsAssignableType>>` that
`StructOpsConfig::from_meta` folds `collect_meta_map` results into: one slot
per key, later inserts overwriting earlier ones. -/
structure OpsSlots where
  add : Option (Option OpsAssignableType)
  sub : Option (Option OpsAssignableType)
  mul : Option (Option OpsAssignableType)
  div : Option (Option OpsAssignableType)

/-- `HashMap::new()`. -/
def OpsSlots.empty : OpsSlots := ⟨none, none, none, none⟩

/-- `map.insert(key, val)`. -/
def OpsSlots.insert (m : OpsSlots) : OpsType → Option OpsAssignableType → OpsSlots
  | .add, v => { m with add := some v }
  | .sub, v => { m with sub := some v }
  | .mul, v => { m with mul := some v }
  | .div, v => { m with div := some v }

/-- The classifier closure inside `StructOpsConfig::from_meta`: family name
to `OpsType`, literal to the requested forms (`"both" | "assign" | "plain"`,
booleans toggling the default `Plain`). -/
def structOpsEntry (name : String) (lit : Option Lit) :
    Except SynError (OpsType × Option OpsAssignableType) := do
  let opsType ← match OpsType.fromStr name with
    | some t => pure t
    | none => .error ["invalid ops type"]
  let val ← match lit with
    | some l =>
      match l with
      | .str s =>
        match OpsAssignableType.fromStr s with
        | some v => pure (some v)
        | none => .error ["invalid ops operation type"]
      | .bool b => pure (if b then some OpsAssignableType.init else none)
      | _ => .error ["invalid ops operation type"]
    | none => pure (some OpsAssignableType.init)
  pure (opsType, val)

/-- The loop of `utils/collect_meta.rs` `collect_meta_map`, instantiated at
`structOpsEntry`: entries are enumerated, paths and name-value pairs are
classified, other shapes are skipped, classifier failures are aggregated
and the successes are inserted into the map (last wins). -/
def collectStructOps : List Meta → OpsSlots → Option SynError → OpsSlots × Option SynError
  | [], m, err => (m, err)
  | .path n :: rest, m, err =>
    match structOpsEntry n none with
    | .ok (k, v) => collectStructOps rest (m.insert k v) err
    | .error e => collectStructOps rest m (updateOrCombine err e)
  | .nameValue n l :: rest, m, err =>
    match structOpsEntry n (some l) with
    | .ok (k, v) => collectStructOps rest (m.insert k v) err
    | .error e => collectStructOps rest m (updateOrCombine err e)
  | _ :: rest, m, err => collectStructOps rest m err

/-- `StructOpsConfig::from_meta`: collect the map, then
`config.add = map.get(&OpsType::Add).copied().flatten()` and so on. -/
def StructOpsConfig.fromMeta (nested : List Meta) : Except SynError StructOpsConfig :=
  let (m, err) := collectStructOps nested .empty none
  closeErr err
    { add := m.add.join, sub := m.sub.join, mul := m.mul.join, div := m.div.join }

/-- The classifier closure for the structure-level `cmp(...)` group
(`struct_config.rs` lines 154-163): each item is a bare switch name. -/
def structCmpItem (cmp : StructCmpConfig) (item : String) :
    Except SynError StructCmpConfig :=
  match item with
  | "eq" => .ok { cmp with eq := true }
  | "peq" | "partial_eq" => .ok { cmp with partial_eq := true }
  | "ord" | "cmp" => .ok { cmp with ord := true }
  | "partial_ord" | "pord" | "partial_cmp" | "pcmp" => .ok { cmp with partial_ord := true }
  | _ => .error ["invalid `cmp` value"]

/-- The loop of `collect_meta_set` applied to the structure `cmp(...)` group:
bare identifiers and string literals are classified, any other entry shape
is itself an aggregated error. -/
def collectStructCmp : List Meta → StructCmpConfig → Option SynError →
    StructCmpConfig × Option SynError
  | [], cmp, err => (cmp, err)
  | .path n :: rest, cmp, err =>
    match structCmpItem cmp n with
    | .ok cmp2 => collectStructCmp rest cmp2 err
    | .error e => collectStructCmp rest cmp (updateOrCombine err e)
  | .litArg (.str s) :: rest, cmp, err =>
    match structCmpItem cmp s with
    | .ok cmp2 => collectStructCmp rest cmp2 err
    | .error e => collectStructCmp rest cmp (updateOrCombine err e)
  | _ :: rest, cmp, err =>
    collectStructCmp rest cmp
      (updateOrCombine err ["invalid meta argument, expect ident or string literal"])

/-- Structure-level `cmp(...)`: `collect_meta_set` plus the closing
`err.ok_or(()).swap()?`. -/
def StructCmpConfig.collect (cmp : StructCmpConfig) (nested : List Meta) :
    Except SynError StructCmpConfig :=
  let (cmp2, err) := collectStructCmp nested cmp none
  closeErr err cmp2

/-- `config/struct_config.rs` `StructConfig`. -/
structure StructConfig where
  generate_default : Bool
  const_default : Bool
  impl_std_default : Bool
  partial_default : Bool
  manual_debug : Bool
  override_auto_get : GetterType
  override_auto_set : SetterType
  cmp : StructCmpConfig
  ops : StructOpsConfig
deriving DecidableEq

/-- The initial configuration built at the top of
`StructConfig::from_attribute`. -/
def StructConfig.start : StructConfig where
  generate_default := false
  const_default := false
  impl_std_default := false
  partial_default := false
  manual_debug := false
  override_auto_get := .no
  override_auto_set := .no
  cmp := .init
  ops := .init

/-- One iteration of the option dispatch inside
`StructConfig::from_attribute` (the `if meta.path().is_ident(..)` chain).
Unrecognized option names fall through with no effect. -/
def StructConfig.applyMeta (cfg : StructConfig) (m : Meta) : Except SynError StructConfig :=
  match m.name? with
  | none => .ok cfg
  | some n =>
    if n = "default" then
      match m with
      | .path _ => .ok { cfg with generate_default := true }
      | .nameValue _ (.bool b) => .ok { cfg with generate_default := b }
      | _ => .error ["`default` argument should be like `default = true` or simply `default`"]
    else if n = "const" then
      match m with
      | .path _ => .ok { cfg with const_default := true }
      | .nameValue _ (.bool b) => .ok { cfg with const_default := b }
      | _ => .error ["`const` argument should be like `const = true` or simply `const`"]
    else if n = "std_default" then
      match m with
      | .path _ => .ok { cfg with impl_std_default := true }
      | .nameValue _ (.bool b) => .ok { cfg with impl_std_default := b }
      | _ => .error ["`std_default` argument should be like `std_default = true` or simply `std_default`"]
    else if n = "debug" then
      match m with
      | .path _ => .ok { cfg with manual_debug := true }
      | .nameValue _ (.bool b) => .ok { cfg with manual_debug := b }
      | _ => .error ["`debug` argument should be like `debug = true` or simply `debug`"]
    else if n = "partial" then
      match m with
      | .path _ => .ok { cfg with partial_default := true }
      -- sic: struct_config.rs line 108 assigns `config.const_default = lit.value`
      -- in the `partial` branch.
      | .nameValue _ (.bool b) => .ok { cfg with const_default := b }
      | _ => .error ["`partial` argument should be like `partial = true` or simply `partial`"]
    else if n = "set" then
      match m with
      | .path _ => .ok { cfg with override_auto_set := SetterType.init }
      | .nameValue _ (.str s) =>
        match SetterType.fromStr s with
        | some t => .ok { cfg with override_auto_set := t }
        | none => .error ["unknown `set` type"]
      | _ => .error ["invalid `set` value, see the documentation for more information"]
    else if n = "get" then
      match m with
      | .path _ => .ok { cfg with override_auto_get := GetterType.init }
      | .nameValue _ (.str s) =>
        match GetterType.fromStr s with
        | some t => .ok { cfg with override_auto_get := t }
        | none => .error ["unknown `get` type"]
      | _ => .error ["invalid `get` value, see the documentation for more information"]
    else if n = "cmp" then
      match m with
      | .list _ nested => (cfg.cmp.collect nested).map fun c => { cfg with cmp := c }
      | _ => .error ["invalid `cmp` value, see the documentation for more information"]
    else if n = "ops" then
      match m with
      | .list _ nested =>
        (StructOpsConfig.fromMeta nested).map fun o => { cfg with ops := cfg.ops.mutAnd o }
      -- sic: the `ops` shape error message in struct_config.rs line 175 says `cmp`.
      | _ => .error ["invalid `cmp` value, see the documentation for more information"]
    else .ok cfg

/-- The inner loop over one attribute's nested entries
(`for meta in ml.nested`, keeping only `NestedMeta::Meta`). -/
def StructConfig.applyMetas (cfg : StructConfig) : List Meta → Except SynError StructConfig
  | [] => .ok cfg
  | .litArg _ :: rest => StructConfig.applyMetas cfg rest
  | m :: rest => (cfg.applyMeta m).bind fun cfg2 => StructConfig.applyMetas cfg2 rest

/-- The outer loop over the item's attributes: only attributes that parse to
a `Meta::List` whose path is `dstruct` are processed
(`meta_list_from_attr`); all others are skipped. -/
def StructConfig.applyAttrs (cfg : StructConfig) : List Meta → Except SynError StructConfig
  | [] => .ok cfg
  | .list n nested :: rest =>
    if n = "dstruct" then
      (StructConfig.applyMetas cfg nested).bind fun cfg2 => StructConfig.applyAttrs cfg2 rest
    else StructConfig.applyAttrs cfg rest
  | _ :: rest => StructConfig.applyAttrs cfg rest

/-- `StructConfig::from_attribute` (minus the returned attribute vector):
fold the structure attributes over the option dispatch, then validate the
default/partial conflict. -/
def StructConfig.fromAttribute (attrs : List Meta) : Except SynError StructConfig :=
  (StructConfig.applyAttrs StructConfig.start attrs).bind fun cfg =>
    if (cfg.generate_default || cfg.const_default) && cfg.partial_default then
      .error ["partial default does nothing if all fields have default values."]
    else .ok cfg

/-- Rust `str::parse::<bool>`: exactly `"true"` or `"false"`. -/
def parseRustBool : String → Option Bool
  | "true" => some true
  | "false" => some false
  | _ => none

/-- Rust `str::parse::<isize>`, modelled with `String.toInt?` (an optional
leading minus sign and digits; the claims never exercise the `+`-prefixed
forms where the two differ). -/
def parseRustInt (s : String) : Option Int := s.toInt?

/-- The classifier closure inside `FieldCmpConfig::from_meta` (`cmp.rs`
lines 205-279): `idx` is the entry's position in the nested list, used as
the default rank.  Unknown keys are silently ignored. -/
def fieldCmpEntry (idx : Nat) (cfg : FieldCmpConfig) (name : String) (lit : Option Lit) :
    Except SynError FieldCmpConfig :=
  match name with
  | "eq" | "peq" =>
    match lit with
    | some (.bool b) => .ok { cfg with eq := b }
    | some (.str s) =>
      match parseRustBool s with
      | some v => .ok { cfg with eq := v }
      | none => .error ["cannot parse `eq` value"]
    | none => .ok { cfg with eq := true }
    | some _ => .error ["invalid `eq` value, see the documentation for more information"]
  | "cmp" | "ord" =>
    match lit with
    | some (.bool b) => .ok { cfg with ord := if b then some idx else none }
    | some (.str s) =>
      match parseRustInt s with
      | some v => .ok { cfg with ord := some v }
      | none => .error ["cannot parse `cmp` value"]
    | some (.int v) => .ok { cfg with ord := some v }
    | none => .ok { cfg with ord := some idx }
    | some _ => .error ["invalid `cmp` value, see the documentation for more information"]
  | "partial_cmp" | "pcmp" | "partial_ord" | "pord" =>
    match lit with
    | some (.bool b) => .ok { cfg with partial_ord := if b then some idx else none }
    | some (.str s) =>
      match parseRustInt s with
      | some v => .ok { cfg with partial_ord := some v }
      | none => .error ["cannot parse `partial_cmp` value"]
    | some (.int v) => .ok { cfg with partial_ord := some v }
    | none => .ok { cfg with partial_ord := some idx }
    | some _ => .error ["invalid `partial_cmp` value, see the documentation for more information"]
  | _ => .ok cfg

/-- The `collect_meta_map` loop applied to a field's `cmp(...)` group:
every entry (processed or skipped) advances the index; classifier failures
are aggregated. -/
def collectFieldCmp : Nat → List Meta → FieldCmpConfig → Option SynError →
    FieldCmpConfig × Option SynError
  | _, [], cfg, err => (cfg, err)
  | idx, .path n :: rest, cfg, err =>
    match fieldCmpEntry idx cfg n none with
    | .ok cfg2 => collectFieldCmp (idx + 1) rest cfg2 err
    | .error e => collectFieldCmp (idx + 1) rest cfg (updateOrCombine err e)
  | idx, .nameValue n l :: rest, cfg, err =>
    match fieldCmpEntry idx cfg n (some l) with
    | .ok cfg2 => collectFieldCmp (idx + 1) rest cfg2 err
    | .error e => collectFieldCmp (idx + 1) rest cfg (updateOrCombine err e)
  | idx, _ :: rest, cfg, err => collectFieldCmp (idx + 1) rest cfg err

/-- `FieldCmpConfig::from_meta`: starts from the field default
(`eq = true`, no ranks) — a repeated `cmp(...)` group therefore rebuilds
the whole sub-configuration from scratch. -/
def FieldCmpConfig.fromMeta (nested : List Meta) : Except SynError FieldCmpConfig :=
  let (cfg, err) := collectFieldCmp 0 nested FieldCmpConfig.init none
  closeErr err cfg

/-- `ops.rs` `OpsOperationType`: a field's participation in one operator
form.  `manual` carries the raw template text; substitution and parsing
happen at generation time. -/
inductive OpsOperationType where
  | manual (s : String)
  | inherit
  | ignore
deriving DecidableEq

/-- `#[derive(Default)]`: `#[default] Inherit`. -/
def OpsOperationType.init : OpsOperationType := .inherit

/-- `OpsOperationType::from_lit`. -/
def OpsOperationType.fromLit : Lit → Except SynError OpsOperationType
  | .str s =>
    match s with
    | "inherit" | "default" => .ok .inherit
    | "ignore" | "no" => .ok .ignore
    | n => .ok (.manual n)
  | .bool b => .ok (if b then .inherit else .ignore)
  | _ => .error ["invalid ops operation type"]

/-- `ops.rs` `FieldOpsConfig`: one slot per family and form. -/
structure FieldOpsConfig where
  add : Option OpsOperationType
  sub : Option OpsOperationType
  mul : Option OpsOperationType
  div : Option OpsOperationType
  add_assign : Option OpsOperationType
  sub_assign : Option OpsOperationType
  mul_assign : Option OpsOperationType
  div_assign : Option OpsOperationType
deriving DecidableEq

/-- `#[derive(Default)]`: no slot set. -/
def FieldOpsConfig.init : FieldOpsConfig :=
  ⟨none, none, none, none, none, none, none, none⟩

/-- The plain-form slot of a family. -/
def FieldOpsConfig.famPlain (c : FieldOpsConfig) : OpsType → Option OpsOperationType
  | .add => c.add
  | .sub => c.sub
  | .mul => c.mul
  | .div => c.div

/-- The in-place-form slot of a family. -/
def FieldOpsConfig.famAssign (c : FieldOpsConfig) : OpsType → Option OpsOperationType
  | .add => c.add_assign
  | .sub => c.sub_assign
  | .mul => c.mul_assign
  | .div => c.div_assign

/-- The option names the field `ops(...)` group recognizes, mapped to
(family, is-assign-form); mirrors the identifier list fed to
`__help_impl_field_config_match`. -/
def fieldOpsKey? : String → Option (OpsType × Bool)
  | "add" => some (.add, false)
  | "sub" => some (.sub, false)
  | "mul" => some (.mul, false)
  | "div" => some (.div, false)
  | "add_assign" => some (.add, true)
  | "sub_assign" => some (.sub, true)
  | "mul_assign" => some (.mul, true)
  | "div_assign" => some (.div, true)
  | _ => none

/-- Write one slot. -/
def FieldOpsConfig.setSlot (c : FieldOpsConfig) : OpsType × Bool → OpsOperationType → FieldOpsConfig
  | (.add, false), v => { c with add := some v }
  | (.sub, false), v => { c with sub := some v }
  | (.mul, false), v => { c with mul := some v }
  | (.div, false), v => { c with div := some v }
  | (.add, true), v => { c with add_assign := some v }
  | (.sub, true), v => { c with sub_assign := some v }
  | (.mul, true), v => { c with mul_assign := some v }
  | (.div, true), v => { c with div_assign := some v }

/-- One dispatch step of `FieldOpsConfig::from_meta`
(`__help_impl_field_config_match`): bare name sets the slot to the default
operation, a literal goes through `from_lit`, a nested list is a shape
error, an unknown name is an error; all failures are aggregated, not
short-circuited. -/
def fieldOpsApply (cfg : FieldOpsConfig) (err : Option SynError) (m : Meta) :
    FieldOpsConfig × Option SynError :=
  match m.name? with
  | none => (cfg, err)
  | some n =>
    match fieldOpsKey? n with
    | some k =>
      match m with
      | .path _ => (cfg.setSlot k OpsOperationType.init, err)
      | .nameValue _ l =>
        match OpsOperationType.fromLit l with
        | .ok op => (cfg.setSlot k op, err)
        | .error e => (cfg, updateOrCombine err e)
      | _ => (cfg, updateOrCombine err ["invalid ops `" ++ n ++ "` type"])
    | none => (cfg, updateOrCombine err ["invalid ops type"])

/-- The loop of `FieldOpsConfig::from_meta` over the nested entries
(`NestedMeta::Lit` entries are filtered out before dispatch). -/
def collectFieldOps : List Meta → FieldOpsConfig → Option SynError →
    FieldOpsConfig × Option SynError
  | [], cfg, err => (cfg, err)
  | .litArg _ :: rest, cfg, err => collectFieldOps rest cfg err
  | m :: rest, cfg, err =>
    let (cfg2, err2) := fieldOpsApply cfg err m
    collectFieldOps rest cfg2 err2

/-- `FieldOpsConfig::from_meta`. -/
def FieldOpsConfig.fromMeta (nested : List Meta) : Except SynError FieldOpsConfig :=
  let (cfg, err) := collectFieldOps nested FieldOpsConfig.init none
  closeErr err cfg

/-- `config/field_config.rs` `FieldConfig`. -/
structure FieldConfig where
  default_value : Option DExpr
  init_seq : Option Int
  auto_set : SetterType
  auto_get : GetterType
  no_debug : Bool
  do_with : Bool
  map : Bool
  cmp : FieldCmpConfig
  ops : FieldOpsConfig
deriving DecidableEq

/-- The initial field configuration built at the top of
`FieldConfig::from_attribute`, seeded with the structure-level
accessor/mutator defaults. -/
def FieldConfig.start (default_set : SetterType) (default_get : GetterType) : FieldConfig where
  default_value := none
  init_seq := none
  auto_set := default_set
  auto_get := default_get
  no_debug := false
  do_with := false
  map := false
  cmp := .init
  ops := .init

/-- One iteration of the option dispatch inside
`FieldConfig::from_attribute`.  Each malformed option is an immediate
`return Err(..)` — the first failure aborts the whole field resolution.
`pex` is the external expression parser used for `default = "expr"`; its
failure is extended with a context message (`syn::Error::extend`). -/
def FieldConfig.applyMeta (pex : ExprParse) (cfg : FieldConfig) (m : Meta) :
    Except SynError FieldConfig :=
  match m.name? with
  | none => .ok cfg
  | some n =>
    if n = "default" then
      match m with
      | .nameValue _ (.str s) =>
        if s = "" then .error ["`default` value should not be empty"]
        else
          match pex s with
          | .ok e => .ok { cfg with default_value := some e }
          | .error e => .error (e ++ ["`default` value should be a valid expression"])
      | _ => .error ["invalid `default` value, see the documentation for more information"]
    else if n = "seq" || n = "sequence" then
      match m with
      | .nameValue _ (.int v) => .ok { cfg with init_seq := some v }
      | _ => .error ["invalid `seq` value, see the documentation for more information"]
    else if n = "get" then
      match m with
      | .path _ => .ok { cfg with auto_get := GetterType.init }
      | .nameValue _ (.str s) =>
        match GetterType.fromStr s with
        | some t => .ok { cfg with auto_get := t }
        | none => .error ["unknown `get` type"]
      | _ => .error ["invalid `get` value, see the documentation for more information"]
    else if n = "set" then
      match m with
      | .path _ => .ok { cfg with auto_set := SetterType.init }
      | .nameValue _ (.str s) =>
        match SetterType.fromStr s with
        | some t => .ok { cfg with auto_set := t }
        | none => .error ["unknown `set` type"]
      | _ => .error ["invalid `set` value, see the documentation for more information"]
    else if n = "do_with" then
      match m with
      | .path _ => .ok { cfg with do_with := true }
      | .nameValue _ (.bool b) => .ok { cfg with do_with := b }
      | _ => .error ["invalid `do_with` value, see the documentation for more information"]
    else if n = "map" then
      match m with
      | .path _ => .ok { cfg with map := true }
      | .nameValue _ (.bool b) => .ok { cfg with map := b }
      | _ => .error ["invalid `map` value, see the documentation for more information"]
    else if n = "no_debug" then
      match m with
      | .path _ => .ok { cfg with no_debug := true }
      | .nameValue _ (.bool b) => .ok { cfg with no_debug := b }
      | _ => .error ["invalid `no_debug` value, see the documentation for more information"]
    else if n = "cmp" then
      match m with
      | .list _ nested => (FieldCmpConfig.fromMeta nested).map fun c => { cfg with cmp := c }
      | _ => .error ["invalid `cmp` value, see the documentation for more information"]
    else if n = "ops" then
      match m with
      | .list _ nested => (FieldOpsConfig.fromMeta nested).map fun o => { cfg with ops := o }
      | _ => .error ["invalid `ops` value, see the documentation for more information"]
    else .ok cfg

/-- The inner loop over one `dfield` attribute's nested entries
(`NestedMeta::Lit` entries are skipped). -/
def FieldConfig.applyMetas (pex : ExprParse) (cfg : FieldConfig) :
    List Meta → Except SynError FieldConfig
  | [] => .ok cfg
  | .litArg _ :: rest => FieldConfig.applyMetas pex cfg rest
  | m :: rest =>
    (FieldConfig.applyMeta pex cfg m).bind fun cfg2 => FieldConfig.applyMetas pex cfg2 rest

/-- The outer loop over the field's attributes: only `Meta::List` attributes
whose path is `dfield` are processed. -/
def FieldConfig.applyAttrs (pex : ExprParse) (cfg : FieldConfig) :
    List Meta → Except SynError FieldConfig
  | [] => .ok cfg
  | .list n nested :: rest =>
    if n = "dfield" then
      (FieldConfig.applyMetas pex cfg nested).bind fun cfg2 =>
        FieldConfig.applyAttrs pex cfg2 rest
    else FieldConfig.applyAttrs pex cfg rest
  | _ :: rest => FieldConfig.applyAttrs pex cfg rest

/-- `FieldConfig::from_attribute` (minus the returned attribute vector). -/
def FieldConfig.fromAttribute (pex : ExprParse) (attrs : List Meta)
    (default_set : SetterType) (default_get : GetterType) : Except SynError FieldConfig :=
  FieldConfig.applyAttrs pex (FieldConfig.start default_set default_get) attrs

/-! ## The declaration model (`syntax.rs`) and the resolved structure
(`generate.rs`).  Visibility, generics and field types play no role in
configuration resolution and are omitted. -/

/-- `syntax.rs` `StructField`: name, attributes, optional inline
`= expr` initializer (already parsed by the upstream collaborator). -/
structure StructField where
  ident : String
  attrs : List Meta
  default_value : Option DExpr

/-- `syntax.rs` `RichStruct`. -/
structure RichStruct where
  attrs : List Meta
  ident : String
  fields : List StructField

/-- `generate.rs` `StructFieldContent`. -/
structure StructFieldContent where
  config : FieldConfig
  ident : String
deriving DecidableEq

/-- `StructFieldContent::from_syntax`: resolve the field configuration, then
fall back to the inline initializer when no `default = ".."` option set a
default value. -/
def StructFieldContent.fromSyn (pex : ExprParse) (f : StructField)
    (dset : SetterType) (dget : GetterType) : Except SynError StructFieldContent :=
  (FieldConfig.fromAttribute pex f.attrs dset dget).map fun cfg =>
    let cfg :=
      match cfg.default_value, f.default_value with
      | none, some t => { cfg with default_value := some t }
      | _, _ => cfg
    ⟨cfg, f.ident⟩

/-- Insert with respect to a key, before the first element whose key is not
smaller: the insertion step of a stable sort. -/
def orderedInsert (key : α → Int) (a : α) : List α → List α
  | [] => [a]
  | b :: l => if key a ≤ key b then a :: b :: l else b :: orderedInsert key a l

/-- Stable sort by an integer key.  `Itertools::sorted_by_key`
(`generate.rs` line 41) collects into a vector and uses the standard
library's stable sort; insertion sort computes the same list. -/
def sortByKey (key : α → Int) : List α → List α
  | [] => []
  | a :: l => orderedInsert key a (sortByKey key l)

/-- The enumerated field-resolution loop of
`RichStructContent::from_syntax` (lines 26-39): each field is resolved and
paired with its effective sequence key — its explicit `seq` when present,
its declaration index otherwise (`content.config.init_seq.unwrap_or(idx)`).
`idx` is the declaration index of the first field of the remaining list. -/
def resolveKeyed (pex : ExprParse) (dset : SetterType) (dget : GetterType) :
    Nat → List StructField → Except SynError (List (StructFieldContent × Int))
  | _, [] => .ok []
  | idx, f :: rest =>
    (StructFieldContent.fromSyn pex f dset dget).bind fun c =>
      (resolveKeyed pex dset dget (idx + 1) rest).map fun tail =>
        (c, c.config.init_seq.getD (idx : Int)) :: tail

/-- `generate.rs` `RichStructContent`. -/
structure RichStructContent where
  config : StructConfig
  ident : String
  fields : List StructFieldContent

/-- `RichStructContent::from_syntax`: structure options, per-field
resolution seeded with the structure-level accessor/mutator defaults, then
the stable sort of the fields by effective sequence key. -/
def RichStructContent.fromSyn (pex : ExprParse) (s : RichStruct) :
    Except SynError RichStructContent :=
  (StructConfig.fromAttribute s.attrs).bind fun cfg =>
    (resolveKeyed pex cfg.override_auto_set cfg.override_auto_get 0 s.fields).map fun keyed =>
      ⟨cfg, s.ident, (sortByKey Prod.snd keyed).map Prod.fst⟩

/-! ## The synthesis plan.  `to_impl` renders a token stream; the members it
concatenates are modelled as descriptors carrying exactly the data the
rendered code depends on. -/

/-- The per-field expression inside a plain operator implementation
(`OpsOperationType::_impl_ops`): `self.f` for `Ignore`, `self.f <op> rhs.f`
for `Inherit`, the parsed substituted template for `Manual`. -/
inductive OpsExpr where
  | selfField (ident : String)
  | binop (fam : OpsType) (ident : String)
  | custom (e : DExpr)
deriving DecidableEq

/-- The per-field statement inside an in-place operator implementation
(`OpsOperationType::_impl_ops_assign`); `Ignore` produces no statement. -/
inductive AssignStmt where
  | opAssign (fam : OpsType) (ident : String)
  | setField (ident : String) (e : DExpr)
deriving DecidableEq

/-- One generated member. -/
inductive Member where
  | method (name : String)
  | partialDefaultCtor (params : List String) (bindings : List (String × DExpr))
      (order : List String)
  | dataDefault (body : List (String × DExpr))
  | constDefault (body : List (String × DExpr))
  | stdDefault (body : List (String × DExpr))
  | debugImpl (shown : List String)
  | partialEqImpl (fields : List String)
  | eqImpl
  | ordImpl (chain : List String)
  | pordCoupled
  | pordChain (chain : List String)
  | opsPlain (fam : OpsType) (fields : List (String × OpsExpr))
  | opsAssign (fam : OpsType) (stmts : List (Option AssignStmt))
deriving DecidableEq

/-- `GetterType::to_code`: the getter method names generated for a field. -/
def GetterType.toCode (t : GetterType) (ident : String) : List String :=
  match t with
  | .full => [ident, "get_" ++ ident]
  | .get => [ident]
  | .move => ["get_" ++ ident]
  | .no => []

/-- `SetterType::to_code`: the setter method names generated for a field. -/
def SetterType.toCode (t : SetterType) (ident : String) : List String :=
  match t with
  | .full => ["set_" ++ ident, "with_" ++ ident]
  | .set => ["set_" ++ ident]
  | .withSelf => ["with_" ++ ident]
  | .no => []

/-- `StructFieldContent::generate_impl_code`: getters, setters, `do_with`,
`map`. -/
def StructFieldContent.generateImplCode (f : StructFieldContent) : List Member :=
  (f.config.auto_get.toCode f.ident).map .method
    ++ (f.config.auto_set.toCode f.ident).map .method
    ++ (if f.config.do_with then [.method ("do_with_" ++ f.ident)] else [])
    ++ (if f.config.map then [.method ("map_" ++ f.ident)] else [])

namespace RichStructContent

/-- `RichStructContent::can_impl_default`. -/
def can_impl_default (s : RichStructContent) : Bool :=
  s.fields.all fun f => f.config.default_value.isSome

/-- `RichStructContent::impl_default_construct`: one let-binding per field,
in resolved order.  The source unwraps each default value under the
caller's `can_impl_default` guard; the unguarded (unreachable) case is
`none` here. -/
def impl_default_construct : List StructFieldContent → Option (List (String × DExpr))
  | [] => some []
  | f :: rest =>
    match f.config.default_value with
    | none => none
    | some e => (impl_default_construct rest).map fun tail => (f.ident, e) :: tail

/-- `RichStructContent::impl_default` (the `datastruct::DataStruct`
implementation), with the body shared through `impl_default_construct`. -/
def impl_default (s : RichStructContent) : List Member :=
  match impl_default_construct s.fields with
  | some b => [.dataDefault b]
  | none => []

/-- `RichStructContent::impl_const_default`. -/
def impl_const_default (s : RichStructContent) : List Member :=
  match impl_default_construct s.fields with
  | some b => [.constDefault b]
  | none => []

/-- `RichStructContent::impl_std_default`. -/
def impl_std_default (s : RichStructContent) : List Member :=
  match impl_default_construct s.fields with
  | some b => [.stdDefault b]
  | none => []

/-- `RichStructContent::impl_partial_default`: fields with a default become
let-bindings, fields without become parameters; `partition_map` keeps both
sides in field order, and the construction lists every field in resolved
order. -/
def impl_partial_default (s : RichStructContent) : Member :=
  .partialDefaultCtor
    ((s.fields.filter fun f => f.config.default_value.isNone).map (·.ident))
    (s.fields.filterMap fun f => f.config.default_value.map fun e => (f.ident, e))
    (s.fields.map (·.ident))

/-- `RichStructContent::generate_impl`: the inherent-impl block—the
per-field methods, plus the partial-default constructor when requested. -/
def generate_impl (s : RichStructContent) : List Member :=
  s.fields.flatMap StructFieldContent.generateImplCode
    ++ (if s.config.partial_default then [impl_partial_default s] else [])

/-- `RichStructContent::impl_debug`: the `Debug` implementation listing
fields not marked `no_debug`. -/
def impl_debug (s : RichStructContent) : Member :=
  .debugImpl ((s.fields.filter fun f => !f.config.no_debug).map (·.ident))

end RichStructContent

namespace StructCmpConfig

/-- `StructCmpConfig::impl_partial_eq`: conjunction over the fields whose
`cmp.eq` flag is on, in resolved order (infallible in the source: it always
returns `Ok`). -/
def impl_partial_eq (s : RichStructContent) : Member :=
  .partialEqImpl ((s.fields.filter fun f => f.config.cmp.eq).map (·.ident))

/-- `StructCmpConfig::impl_ord`: rank-sorted comparison chain; error when no
field carries an `ord` rank. -/
def impl_ord (s : RichStructContent) : Except SynError Member :=
  match (sortByKey Prod.snd
      (s.fields.filterMap fun f => f.config.cmp.ord.map fun d => (f, d))).map
      (fun p => p.1.ident) with
  | [] => .error ["at least one field can be `ord`ed if you want to derive `cmp.ord`"]
  | chain => .ok (.ordImpl chain)

/-- `StructCmpConfig::impl_partial_ord`: the analogous partial-ordering
chain over `partial_ord` ranks. -/
def impl_partial_ord (s : RichStructContent) : Except SynError Member :=
  match (sortByKey Prod.snd
      (s.fields.filterMap fun f => f.config.cmp.partial_ord.map fun d => (f, d))).map
      (fun p => p.1.ident) with
  | [] => .error ["at least one field can be `partial_ord`ed if you want to derive `cmp.partial_ord`"]
  | chain => .ok (.pordChain chain)

/-- `StructCmpConfig::impl_rich_ord`: the ordering members.  When both `ord`
and `partial_ord` are requested and no field sets a `partial_ord` rank, the
partial ordering is coupled to the full ordering (`Some(self.cmp(rhs))`)
instead of an independent chain. -/
def impl_rich_ord (s : RichStructContent) : Except SynError (List Member) :=
  (if s.config.cmp.ord then (impl_ord s).map ([·]) else .ok []).bind fun ts =>
    if s.config.cmp.ord && s.config.cmp.partial_ord
        && s.fields.all (fun f => f.config.cmp.partial_ord.isNone) then
      .ok (ts ++ [.pordCoupled])
    else if s.config.cmp.partial_ord then
      (impl_partial_ord s).map fun m => ts ++ [m]
    else .ok ts

/-- `StructCmpConfig::impl_cmp`: equality members, then ordering members. -/
def impl_cmp (s : RichStructContent) : Except SynError (List Member) :=
  (impl_rich_ord s).map fun ord_ms =>
    (if s.config.cmp.partial_eq then [impl_partial_eq s] else [])
      ++ (if s.config.cmp.eq then [Member.eqImpl] else [])
      ++ ord_ms

end StructCmpConfig

/-- `$self`/`$rhs` placeholder substitution before the template is handed to
the external expression parser
(`s.replace("$self", "self").replace("$rhs", "rhs")`). -/
def substTemplate (s : String) : String :=
  (s.replace "$self" "self").replace "$rhs" "rhs"

/-- `OpsOperationType::_impl_ops`: the plain-form field expression. -/
def OpsOperationType.implOps (pex : ExprParse) (op : OpsOperationType) (fam : OpsType)
    (ident : String) : Except SynError OpsExpr :=
  match op with
  | .ignore => .ok (.selfField ident)
  | .inherit => .ok (.binop fam ident)
  | .manual s => (pex (substTemplate s)).map .custom

/-- `OpsOperationType::_impl_ops_assign`: the in-place-form field statement;
`Ignore` emits nothing. -/
def OpsOperationType.implOpsAssign (pex : ExprParse) (op : OpsOperationType) (fam : OpsType)
    (ident : String) : Except SynError (Option AssignStmt) :=
  match op with
  | .ignore => .ok none
  | .inherit => .ok (some (.opAssign fam ident))
  | .manual s => (pex (substTemplate s)).map fun e => some (.setField ident e)

/-- `Itertools::partition_result`: split per-field outcomes into successes
and failures, each side in field order. -/
def partitionExcept : List (Except SynError α) → List α × List SynError
  | [] => ([], [])
  | .ok a :: rest =>
    let (oks, errs) := partitionExcept rest
    (a :: oks, errs)
  | .error e :: rest =>
    let (oks, errs) := partitionExcept rest
    (oks, e :: errs)

/-- The error-closing epilogue shared by the generated
`__help_impl_struct_impl_ops` bodies: combine every failure
(`update_or_combine` in order) or keep the successes. -/
def joinOpsResults (oks : List α) (errs : List SynError) : Except SynError (List α) :=
  match errs with
  | [] => .ok oks
  | e :: rest => .error (rest.foldl (· ++ ·) e)

namespace StructOpsConfig

/-- `impl_add`/`impl_sub`/`impl_mul`/`impl_div` (the non-assign expansion of
`__help_impl_struct_impl_ops`): every field maps to an expression, a field
with no slot for the family defaulting to `Inherit`
(`unwrap_or_default()`).  The source's `filter(!is_empty)` on the rendered
tokens drops nothing in plain form, since `Ignore` renders `self.f`. -/
def implPlain (pex : ExprParse) (fam : OpsType) (s : RichStructContent) :
    Except SynError Member :=
  let pr := partitionExcept
    (s.fields.map fun f =>
      (((f.config.ops.famPlain fam).getD OpsOperationType.init).implOps pex fam f.ident).map
        fun e => (f.ident, e))
  (joinOpsResults pr.1 pr.2).map (.opsPlain fam ·)

/-- `impl_add_assign` and its siblings (the assign expansion of
`__help_impl_struct_impl_ops`). -/
def implAssign (pex : ExprParse) (fam : OpsType) (s : RichStructContent) :
    Except SynError Member :=
  let pr := partitionExcept
    (s.fields.map fun f =>
      ((f.config.ops.famAssign fam).getD OpsOperationType.init).implOpsAssign pex fam f.ident)
  (joinOpsResults pr.1 pr.2).map (.opsAssign fam ·)

/-- Fold the outcome of one family-form generation into the running token
stream and error accumulator, as `__help_impl_ops_item` does. -/
def opsAccum (acc : List Member × Option SynError) (r : Except SynError Member) :
    List Member × Option SynError :=
  match r with
  | .ok m => (acc.1 ++ [m], acc.2)
  | .error e => (acc.1, updateOrCombine acc.2 e)

/-- One `__help_impl_ops_item` expansion: nothing when the family is not
declared at structure level, otherwise the forms its
`OpsAssignableType` requests. -/
def opsFamilyStep (pex : ExprParse) (s : RichStructContent)
    (acc : List Member × Option SynError) (fam : OpsType) :
    List Member × Option SynError :=
  match s.config.ops.famGet fam with
  | none => acc
  | some .both => opsAccum (opsAccum acc (implPlain pex fam s)) (implAssign pex fam s)
  | some .plain => opsAccum acc (implPlain pex fam s)
  | some .assign => opsAccum acc (implAssign pex fam s)

/-- `StructOpsConfig::impl_ops`: the four families in order, failures
accumulated across families and closed at the end. -/
def impl_ops (pex : ExprParse) (s : RichStructContent) : Except SynError (List Member) :=
  let pr := [OpsType.add, .sub, .mul, .div].foldl (opsFamilyStep pex s) ([], none)
  closeErr pr.2 pr.1

end StructOpsConfig

namespace RichStructContent

/-- `RichStructContent::to_impl`: the full member plan.  The default
implementations are emitted only when every field has a default expression
and the corresponding mode flag is set — otherwise they are (silently)
replaced by nothing (`Default::default()` on the token stream). -/
def to_impl (pex : ExprParse) (s : RichStructContent) : Except SynError (List Member) :=
  (StructCmpConfig.impl_cmp s).bind fun cmp_ms =>
    (StructOpsConfig.impl_ops pex s).map fun ops_ms =>
      generate_impl s
        ++ (if s.can_impl_default && s.config.generate_default then impl_default s else [])
        ++ (if s.can_impl_default && s.config.const_default then impl_const_default s else [])
        ++ (if s.can_impl_default && s.config.impl_std_default then impl_std_default s else [])
        ++ (if s.config.manual_debug then [impl_debug s] else [])
        ++ cmp_ms
        ++ ops_ms

end RichStructContent

/-! ## Semantics of the generated members, for the relational claims.
Instances of the host structure are valuations of field names in a totally
ordered carrier (the integers); the generated comparison code calls the
fields' own `cmp`/`partial_cmp`, modelled as `compare` (total, so
`partial_cmp` is `some ∘ compare`). -/

/-- An instance of the generated structure. -/
abbrev Inst := String → Int

/-- The generated `Ord::cmp` body: sequential three-way comparisons chained
with `Ordering::then_with`, left to right in rank order. -/
def evalOrdChain (a b : Inst) (chain : List String) : Ordering :=
  chain.foldl (fun o i => o.then (compare (a i) (b i))) .eq

/-- The ordering chain of an `Ord` implementation member. -/
def memberOrdChain? : Member → Option (List String)
  | .ordImpl c => some c
  | _ => none

/-- The result of the plan's generated `cmp`, when an `Ord` implementation
was generated. -/
def planOrd (ms : List Member) (a b : Inst) : Option Ordering :=
  (ms.findSome? memberOrdChain?).map (evalOrdChain a b)

/-- The generated independent `PartialOrd::partial_cmp` body: the first
comparison, then `and_then`/`map` chaining with `Ordering::then`. -/
def evalPordChain (a b : Inst) : List String → Option Ordering
  | [] => none
  | c :: rest =>
    rest.foldl
      (fun acc i => acc.bind fun g => (some (compare (a i) (b i))).map fun s => g.then s)
      (some (compare (a c) (b c)))

/-- The result of one member's `partial_cmp`, if it is a `PartialOrd`
implementation: the coupled form returns `Some(self.cmp(rhs))` through the
plan's `Ord` implementation, the chain form runs its own chain. -/
def memberPordEval (ms : List Member) (a b : Inst) : Member → Option (Option Ordering)
  | .pordCoupled => (planOrd ms a b).map some
  | .pordChain c => some (evalPordChain a b c)
  | _ => none

/-- The result of the plan's generated `partial_cmp`, when a `PartialOrd`
implementation was generated. -/
def planPord (ms : List Member) (a b : Inst) : Option (Option Ordering) :=
  ms.findSome? (memberPordEval ms a b)

/-- A semantics for the opaque default expressions: the value of an
expression given the already-bound earlier fields.  The construction claims
hold for every such semantics, since the three default constructors share
one body. -/
abbrev ExprEval := DExpr → List (String × Int) → Int

/-- Run a default-construction body: successive let-bindings in resolved
order, each expression seeing the earlier bindings. -/
def evalConstruct (E : ExprEval) (body : List (String × DExpr)) : List (String × Int) :=
  body.foldl (fun env p => env ++ [(p.1, E p.2 env)]) []

/-- The field-by-field values a default-construction member builds (`none`
for members that are not default constructors). -/
def memberValues (E : ExprEval) : Member → Option (List (String × Int))
  | .dataDefault b => some (evalConstruct E b)
  | .constDefault b => some (evalConstruct E b)
  | .stdDefault b => some (evalConstruct E b)
  | _ => none

/-- Is the member one of the three full-default constructors? -/
def Member.isFullDefault : Member → Bool
  | .dataDefault _ => true
  | .constDefault _ => true
  | .stdDefault _ => true
  | _ => false

/-- Does the requested form set include the plain form? -/
def plainRequested : Option OpsAssignableType → Bool
  | some .both | some .plain => true
  | _ => false

/-- Does the requested form set include the in-place form? -/
def assignRequested : Option OpsAssignableType → Bool
  | some .both | some .assign => true
  | _ => false

/-- Does the plan hold a plain implementation of the family? -/
def hasOpsPlain (ms : List Member) (fam : OpsType) : Bool :=
  ms.any fun m =>
    match m with
    | .opsPlain f _ => decide (f = fam)
    | _ => false

/-- Does the plan hold an in-place implementation of the family? -/
def hasOpsAssign (ms : List Member) (fam : OpsType) : Bool :=
  ms.any fun m =>
    match m with
    | .opsAssign f _ => decide (f = fam)
    | _ => false

/-! ## Concrete declarations used to instantiate the claims. -/

/-- A structure requesting `#[dstruct(default)]` whose single field has no
default expression. -/
def exMissingDefault : RichStruct where
  attrs := [Meta.list "dstruct" [Meta.path "default"]]
  ident := "Data"
  fields := [⟨"x", [], none⟩]

/-- `#[dstruct(partial = true)]`. -/
def exPartialKeyValue : List Meta :=
  [Meta.list "dstruct" [Meta.nameValue "partial" (Lit.bool true)]]

/-- `#[dstruct(std_default, partial)]`. -/
def exStdPlusPartial : List Meta :=
  [Meta.list "dstruct" [Meta.path "std_default", Meta.path "partial"]]

/-- `#[dstruct(default, partial)]`. -/
def exDefaultPlusPartial : List Meta :=
  [Meta.list "dstruct" [Meta.path "default", Meta.path "partial"]]

/-- A field attribute list with two malformed options: a non-integer `seq`
and a `default` whose literal is not a string. -/
def exTwoBadFieldOptions : List Meta :=
  [Meta.list "dfield"
    [Meta.nameValue "seq" (Lit.str "x"), Meta.nameValue "default" (Lit.int 3)]]

/-- Fields `[a(seq = 0), b(seq = -1)]` in declaration order. -/
def exSeqSwap : RichStruct where
  attrs := []
  ident := "Data"
  fields :=
    [⟨"a", [Meta.list "dfield" [Meta.nameValue "seq" (Lit.int 0)]], none⟩,
     ⟨"b", [Meta.list "dfield" [Meta.nameValue "seq" (Lit.int (-1))]], none⟩]

/-- A resolved structure whose field explicitly opts into the `add` family
(`Inherit`) while the structure level declares no operator family. -/
def exFieldOnlyAdd : RichStructContent where
  config := StructConfig.start
  ident := "S"
  fields :=
    [⟨{ FieldConfig.start .no .get with
          ops := { FieldOpsConfig.init with add := some .inherit } }, "x"⟩]

/-- Two repeated field `cmp(...)` groups: the first sets `eq = false` and an
`ord` rank, the second only a `pord` switch. -/
def exTwoCmpGroups : List Meta :=
  [Meta.list "dfield"
      [Meta.list "cmp" [Meta.nameValue "eq" (Lit.bool false), Meta.nameValue "ord" (Lit.int 5)]],
   Meta.list "dfield" [Meta.list "cmp" [Meta.path "pord"]]]

/-- A resolved structure requesting `ord` and `partial_ord` with one
`ord`-ranked field and no `partial_ord` rank anywhere. -/
def exCoupledOrd : RichStructContent where
  config := { StructConfig.start with cmp := { StructCmpConfig.init with ord := true, partial_ord := true } }
  ident := "S"
  fields :=
    [⟨{ FieldConfig.start .no .get with
          cmp := { FieldCmpConfig.init with ord := some 0 } }, "x"⟩,
     ⟨FieldConfig.start .no .get, "y"⟩]

/-- A resolved structure requesting `ord` with one ranked field. -/
def exOrdOne : RichStructContent where
  config := { StructConfig.start with cmp := { StructCmpConfig.init with ord := true } }
  ident := "S"
  fields :=
    [⟨{ FieldConfig.start .no .get with
          cmp := { FieldCmpConfig.init with ord := some 0 } }, "x"⟩]

/-- A declaration where every field has a default expression and all three
full default modes are requested. -/
def exAllDefaults : RichStruct where
  attrs := [Meta.list "dstruct" [Meta.path "default", Meta.path "const", Meta.path "std_default"]]
  ident := "Data"
  fields :=
    [⟨"x", [Meta.list "dfield" [Meta.nameValue "default" (Lit.str "10")]], none⟩,
     ⟨"y", [], some ⟨"x + 1"⟩⟩]

/-! ## Theorems -/

/-- Invert `Except.map` on a success. -/
theorem exceptMapOk {ε α β : Type} {x : Except ε α} {f : α → β} {b : β}
    (h : x.map f = .ok b) : ∃ a, x = .ok a ∧ b = f a := by
  cases x with
  | error e => simp [Except.map] at h
  | ok a => simp [Except.map] at h; exact ⟨a, rfl, h.symm⟩

/-- Invert `Except.bind` on a success. -/
theorem exceptBindOk {ε α β : Type} {x : Except ε α} {f : α → Except ε β} {b : β}
    (h : x.bind f = .ok b) : ∃ a, x = .ok a ∧ f a = .ok b := by
  cases x with
  | error e => simp [Except.bind] at h
  | ok a => simp [Except.bind] at h; exact ⟨a, rfl, h⟩

/-- Invert `closeErr` on a success. -/
theorem closeErrOk {α : Type} {err : Option SynError} {a b : α}
    (h : closeErr err a = .ok b) : err = none ∧ b = a := by
  cases err with
  | none => simp [closeErr] at h; exact ⟨rfl, h.symm⟩
  | some e => simp [closeErr] at h

/-- The per-field methods are never default constructors. -/
theorem generateImplCode_all (f : StructFieldContent) :
    (f.generateImplCode.all fun m => !m.isFullDefault) = true := by
  rcases f with ⟨⟨dv, sq, aset, aget, nd, dw, mp, c, o⟩, id⟩
  cases aset <;> cases aget <;> cases dw <;> cases mp <;> rfl

/-- The inherent-impl members are never default constructors. -/
theorem generate_impl_all (s : RichStructContent) :
    ((RichStructContent.generate_impl s).all fun m => !m.isFullDefault) = true := by
  unfold RichStructContent.generate_impl
  rw [List.all_append, Bool.and_eq_true]
  constructor
  · induction s.fields with
    | nil => rfl
    | cons f rest ih =>
      rw [List.flatMap_cons, List.all_append, Bool.and_eq_true]
      exact ⟨generateImplCode_all f, ih⟩
  · cases s.config.partial_default <;> rfl

/-- A successful `impl_ord` produces an ordering chain member. -/
theorem impl_ord_shape {s : RichStructContent} {m : Member}
    (h : StructCmpConfig.impl_ord s = .ok m) : ∃ chain, m = .ordImpl chain := by
  unfold StructCmpConfig.impl_ord at h
  split at h
  · simp at h
  · simp at h; exact ⟨_, h.symm⟩

/-- A successful `impl_partial_ord` produces a partial-ordering chain member. -/
theorem impl_partial_ord_shape {s : RichStructContent} {m : Member}
    (h : StructCmpConfig.impl_partial_ord s = .ok m) : ∃ chain, m = .pordChain chain := by
  unfold StructCmpConfig.impl_partial_ord at h
  split at h
  · simp at h
  · simp at h; exact ⟨_, h.symm⟩

/-- The ordering members are never default constructors. -/
theorem impl_rich_ord_all {s : RichStructContent} {ms : List Member}
    (h : StructCmpConfig.impl_rich_ord s = .ok ms) :
    (ms.all fun m => !m.isFullDefault) = true := by
  unfold StructCmpConfig.impl_rich_ord at h
  rcases exceptBindOk h with ⟨ts, hts, h2⟩
  have hts_all : (ts.all fun m => !m.isFullDefault) = true := by
    by_cases hord : s.config.cmp.ord = true
    · rw [if_pos hord] at hts
      rcases exceptMapOk hts with ⟨m, hm, hts2⟩
      rcases impl_ord_shape hm with ⟨chain, rfl⟩
      subst hts2; rfl
    · rw [if_neg hord] at hts
      cases hts; rfl
  split at h2
  · cases h2
    rw [List.all_append, Bool.and_eq_true]
    exact ⟨hts_all, rfl⟩
  · split at h2
    · rcases exceptMapOk h2 with ⟨m, hm, rfl⟩
      rcases impl_partial_ord_shape hm with ⟨chain, rfl⟩
      rw [List.all_append, Bool.and_eq_true]
      exact ⟨hts_all, rfl⟩
    · cases h2; exact hts_all

/-- The comparison members are never default constructors. -/
theorem impl_cmp_all {s : RichStructContent} {ms : List Member}
    (h : StructCmpConfig.impl_cmp s = .ok ms) :
    (ms.all fun m => !m.isFullDefault) = true := by
  unfold StructCmpConfig.impl_cmp at h
  rcases exceptMapOk h with ⟨ord_ms, hro, rfl⟩
  rw [List.all_append, List.all_append, Bool.and_eq_true, Bool.and_eq_true]
  refine ⟨⟨?_, ?_⟩, impl_rich_ord_all hro⟩
  · cases s.config.cmp.partial_eq <;> rfl
  · cases s.config.cmp.eq <;> rfl

/-- A successful plain-form family generation is a plain member of that
family. -/
theorem implPlain_shape {pex : ExprParse} {fam : OpsType} {s : RichStructContent} {m : Member}
    (h : StructOpsConfig.implPlain pex fam s = .ok m) : ∃ l, m = .opsPlain fam l := by
  unfold StructOpsConfig.implPlain at h
  rcases exceptMapOk h with ⟨l, _, rfl⟩
  exact ⟨l, rfl⟩

/-- A successful in-place-form family generation is an assign member of
that family. -/
theorem implAssign_shape {pex : ExprParse} {fam : OpsType} {s : RichStructContent} {m : Member}
    (h : StructOpsConfig.implAssign pex fam s = .ok m) : ∃ l, m = .opsAssign fam l := by
  unfold StructOpsConfig.implAssign at h
  rcases exceptMapOk h with ⟨l, _, rfl⟩
  exact ⟨l, rfl⟩

/-- `opsAccum` preserves a predicate over the accumulated members when the
appended result satisfies it. -/
theorem opsAccum_all {p : Member → Bool} {acc : List Member × Option SynError}
    {r : Except SynError Member}
    (hacc : (acc.1.all p) = true) (hr : ∀ m, r = .ok m → p m = true) :
    (((StructOpsConfig.opsAccum acc r).1).all p) = true := by
  cases r with
  | ok m =>
    simp only [StructOpsConfig.opsAccum]
    rw [List.all_append, Bool.and_eq_true]
    exact ⟨hacc, by simp [hr m rfl]⟩
  | error e => exact hacc

/-- The operator members accumulated over any family list are never default
constructors. -/
theorem foldl_ops_all (pex : ExprParse) (s : RichStructContent) :
    ∀ (fams : List OpsType) (acc : List Member × Option SynError),
      (acc.1.all fun m => !m.isFullDefault) = true →
      (((fams.foldl (StructOpsConfig.opsFamilyStep pex s) acc).1).all
          fun m => !m.isFullDefault) = true := by
  intro fams
  induction fams with
  | nil => intro acc h; exact h
  | cons fam rest ih =>
    intro acc h
    rw [List.foldl_cons]
    apply ih
    unfold StructOpsConfig.opsFamilyStep
    have hplain : ∀ m, StructOpsConfig.implPlain pex fam s = .ok m →
        (!m.isFullDefault) = true := by
      intro m hm; rcases implPlain_shape hm with ⟨l, rfl⟩; rfl
    have hassign : ∀ m, StructOpsConfig.implAssign pex fam s = .ok m →
        (!m.isFullDefault) = true := by
      intro m hm; rcases implAssign_shape hm with ⟨l, rfl⟩; rfl
    cases s.config.ops.famGet fam with
    | none => exact h
    | some v =>
      cases v with
      | both => exact opsAccum_all (opsAccum_all h hplain) hassign
      | plain => exact opsAccum_all h hplain
      | assign => exact opsAccum_all h hassign

/-- The operator members are never default constructors. -/
theorem impl_ops_all {pex : ExprParse} {s : RichStructContent} {ms : List Member}
    (h : StructOpsConfig.impl_ops pex s = .ok ms) :
    (ms.all fun m => !m.isFullDefault) = true := by
  unfold StructOpsConfig.impl_ops at h
  rcases closeErrOk h with ⟨_, rfl⟩
  exact foldl_ops_all pex s _ ([], none) rfl

/-- C2: the structure-level option `partial = true` does not set the
partial-default flag; `struct_config.rs` line 108 writes `const_default`
instead, so the resolved policy has `const_default = true` and
`partial_default = false`.  (The code contradicts both the spec and the
pattern of every sibling option; the spec is the intent.) -/
theorem partial_key_value_writes_const_default :
    ∃ cfg, StructConfig.fromAttribute exPartialKeyValue = .ok cfg
      ∧ cfg.partial_default = false ∧ cfg.const_default = true :=
  ⟨_, rfl, rfl, rfl⟩

/-- C3 (counterexample): `#[dstruct(std_default, partial)]` resolves
successfully — a policy requesting `partial` together with the full mode
`std_default` does not fail. -/
theorem std_default_plus_partial_accepted :
    ∃ cfg, StructConfig.fromAttribute exStdPlusPartial = .ok cfg
      ∧ cfg.partial_default = true ∧ cfg.impl_std_default = true :=
  ⟨_, rfl, rfl, rfl⟩

/-- C3 (amended): structure policy resolution fails with the
conflicting-default-mode error exactly when the resolved options request
`partial` together with `default` or `const`; `std_default` is not part of
the conflict check. -/
theorem conflict_check_is_default_or_const :
    ∀ (attrs : List Meta) (cfg : StructConfig),
      StructConfig.applyAttrs StructConfig.start attrs = .ok cfg →
      (StructConfig.fromAttribute attrs =
          .error ["partial default does nothing if all fields have default values."]
        ↔ ((cfg.generate_default || cfg.const_default) && cfg.partial_default) = true) := by
  intro attrs cfg h
  unfold StructConfig.fromAttribute
  rw [h]
  by_cases hc : ((cfg.generate_default || cfg.const_default) && cfg.partial_default) = true
  · simp [Except.bind, hc]
  · simp [Except.bind, hc]

/-- The conflict check at `#[dstruct(default, partial)]`. -/
theorem conflict_check_is_default_or_const_witness :
    StructConfig.fromAttribute exDefaultPlusPartial =
        .error ["partial default does nothing if all fields have default values."]
      ↔ (((true : Bool) || false) && true) = true :=
  conflict_check_is_default_or_const exDefaultPlusPartial
    { StructConfig.start with generate_default := true, partial_default := true } rfl

/-- C4 (counterexample): a field carrying both a non-integer `seq` and an
ill-shaped `default` resolves to exactly the `seq` diagnostic alone — the
`default` failure is never reached, so no compound diagnostic is built. -/
theorem first_field_error_only :
    FieldConfig.fromAttribute pexOk exTwoBadFieldOptions .no .get =
      .error ["invalid `seq` value, see the documentation for more information"] :=
  rfl

/-- C1 (counterexample): a structure requesting `#[dstruct(default)]` whose
field has no default expression resolves and generates successfully — the
outcome is a plan (here an empty one) with no default constructor and no
`MissingDefaultForModeError`-style diagnostic anywhere. -/
theorem missing_default_produces_plan :
    ∃ ms, (RichStructContent.fromSyn pexOk exMissingDefault).bind
        (RichStructContent.to_impl pexOk) = .ok ms
      ∧ (ms.all fun m => !m.isFullDefault) = true :=
  ⟨[], rfl, rfl⟩

/-- C1 (amended): when a full default-generation mode is requested but some
field lacks a default expression, `to_impl` does not fail for that reason:
whenever it succeeds, the plan simply contains no default constructor —
the implementation is silently omitted. -/
theorem missing_default_omits_silently :
    ∀ (pex : ExprParse) (s : RichStructContent) (ms : List Member),
      s.can_impl_default = false →
      RichStructContent.to_impl pex s = .ok ms →
      ∀ m ∈ ms, m.isFullDefault = false := by
  intro pex s ms hcan h
  unfold RichStructContent.to_impl at h
  rcases exceptBindOk h with ⟨cmp_ms, hcmp, h2⟩
  rcases exceptMapOk h2 with ⟨ops_ms, hops, hms⟩
  subst hms
  intro m hm
  rw [hcan] at hm
  simp only [Bool.false_and, Bool.false_eq_true, if_false, List.append_nil,
    List.mem_append] at hm
  rcases hm with ((hg | hd) | hc) | ho
  · have := (List.all_eq_true.mp (generate_impl_all s)) m hg
    simpa using this
  · cases hdbg : s.config.manual_debug
    · rw [hdbg] at hd; simp at hd
    · rw [hdbg] at hd
      simp only [if_true, List.mem_singleton] at hd
      subst hd; rfl
  · have := (List.all_eq_true.mp (impl_cmp_all hcmp)) m hc
    simpa using this
  · have := (List.all_eq_true.mp (impl_ops_all hops)) m ho
    simpa using this

/-- The omission at a concrete structure: the plan of `exOrdOne` (one
default-less field, ordering requested) contains no default constructor. -/
theorem missing_default_omits_silently_witness :
    Member.isFullDefault (.ordImpl ["x"]) = false :=
  missing_default_omits_silently pexOk exOrdOne [.method "x", .ordImpl ["x"]] rfl rfl
    (.ordImpl ["x"]) (by simp)

/-- C4 (amended): field policy resolution short-circuits at the first
malformed top-level field option: whatever options follow a malformed
`seq`, the surfaced diagnostic is the `seq` error alone. -/
theorem field_errors_short_circuit :
    ∀ (pex : ExprParse) (rest : List Meta) (dset : SetterType) (dget : GetterType),
      FieldConfig.fromAttribute pex
          [Meta.list "dfield" (Meta.nameValue "seq" (Lit.str "x") :: rest)] dset dget =
        .error ["invalid `seq` value, see the documentation for more information"] := by
  intro pex rest dset dget
  rfl

/-- Processing concatenated field attribute lists is sequential. -/
theorem fieldApplyAttrs_append (pex : ExprParse) (l1 : List Meta) :
    ∀ (cfg : FieldConfig) (l2 : List Meta),
      FieldConfig.applyAttrs pex cfg (l1 ++ l2) =
        (FieldConfig.applyAttrs pex cfg l1).bind fun c => FieldConfig.applyAttrs pex c l2 := by
  induction l1 with
  | nil => intro cfg l2; rfl
  | cons a rest ih =>
    intro cfg l2
    cases a with
    | list n nested =>
      have eL : FieldConfig.applyAttrs pex cfg (Meta.list n nested :: (rest ++ l2)) =
          if n = "dfield" then
            (FieldConfig.applyMetas pex cfg nested).bind
              fun c => FieldConfig.applyAttrs pex c (rest ++ l2)
          else FieldConfig.applyAttrs pex cfg (rest ++ l2) := rfl
      have eR : FieldConfig.applyAttrs pex cfg (Meta.list n nested :: rest) =
          if n = "dfield" then
            (FieldConfig.applyMetas pex cfg nested).bind
              fun c => FieldConfig.applyAttrs pex c rest
          else FieldConfig.applyAttrs pex cfg rest := rfl
      rw [List.cons_append, eL, eR]
      by_cases hn : n = "dfield"
      · rw [if_pos hn, if_pos hn]
        cases hm : FieldConfig.applyMetas pex cfg nested with
        | error e => rfl
        | ok c2 => exact ih c2 l2
      · rw [if_neg hn, if_neg hn]
        exact ih cfg l2
    | path n => exact ih cfg l2
    | nameValue n l => exact ih cfg l2
    | litArg l => exact ih cfg l2

/-- Unfolding a field attribute list that holds exactly one `cmp(...)`
group. -/
theorem applyAttrs_cmp_aux (pex : ExprParse) (c0 : FieldConfig) (g : List Meta) :
    FieldConfig.applyAttrs pex c0 [Meta.list "dfield" [Meta.list "cmp" g]] =
      (((FieldCmpConfig.fromMeta g).map fun c => { c0 with cmp := c }).bind
        fun c2 => FieldConfig.applyMetas pex c2 []).bind
        fun c3 => FieldConfig.applyAttrs pex c3 [] := rfl

/-- A field attribute consisting of exactly one `cmp(...)` group rebuilds
the comparison sub-configuration from `FieldCmpConfig::from_meta`. -/
theorem applyAttrs_single_cmp (pex : ExprParse) (c0 : FieldConfig) (g : List Meta) :
    FieldConfig.applyAttrs pex c0 [Meta.list "dfield" [Meta.list "cmp" g]] =
      (FieldCmpConfig.fromMeta g).map fun c => { c0 with cmp := c } := by
  rw [applyAttrs_cmp_aux]
  cases hg : FieldCmpConfig.fromMeta g with
  | error e => rfl
  | ok c => rfl

/-- C10: a later field `cmp(...)` group replaces the resolved comparison
sub-configuration wholesale: after any earlier attributes, a final
`cmp(...)` group makes the field's comparison configuration exactly
`FieldCmpConfig::from_meta` of that group, which starts from the default
(`eq = true`, no ranks) — and concretely, `cmp(eq = false, ord = 5)`
followed by `cmp(pord)` resolves to `eq = true`, no `ord` rank, `pord`
rank 0. -/
theorem later_cmp_group_replaces :
    (∀ (pex : ExprParse) (attrs : List Meta) (g : List Meta) (dset : SetterType)
        (dget : GetterType) (cfg : FieldConfig),
      FieldConfig.fromAttribute pex (attrs ++ [Meta.list "dfield" [Meta.list "cmp" g]]) dset dget
          = .ok cfg →
      ∃ c, FieldCmpConfig.fromMeta g = .ok c ∧ cfg.cmp = c)
    ∧ (∃ cfg, FieldConfig.fromAttribute pexOk exTwoCmpGroups .no .get = .ok cfg
        ∧ cfg.cmp = ⟨true, none, some 0⟩) := by
  constructor
  · intro pex attrs g dset dget cfg h
    unfold FieldConfig.fromAttribute at h
    rw [fieldApplyAttrs_append] at h
    rcases exceptBindOk h with ⟨c0, h0, h1⟩
    rw [applyAttrs_single_cmp] at h1
    rcases exceptMapOk h1 with ⟨c, hc, hcfg⟩
    subst hcfg
    exact ⟨c, hc, rfl⟩
  · exact ⟨_, rfl, rfl⟩

/-- The replacement at a concrete input: a single trailing `cmp(pord)`
group makes the field's comparison configuration exactly its
`from_meta` result. -/
theorem later_cmp_group_replaces_witness :
    ∃ c, FieldCmpConfig.fromMeta [Meta.path "pord"] = .ok c
      ∧ ({ FieldConfig.start .no .get with
            cmp := (⟨true, none, some 0⟩ : FieldCmpConfig) } : FieldConfig).cmp = c :=
  later_cmp_group_replaces.1 pexOk [] [Meta.path "pord"] .no .get
    { FieldConfig.start .no .get with cmp := ⟨true, none, some 0⟩ } rfl

/-- Inserting never yields the empty list. -/
theorem orderedInsert_ne_nil {k : α → Int} {a : α} {l : List α} :
    orderedInsert k a l ≠ [] := by
  cases l with
  | nil => simp [orderedInsert]
  | cons b m =>
    simp only [orderedInsert]
    split <;> simp

/-- Sorting a non-empty list yields a non-empty list. -/
theorem sortByKey_ne_nil {k : α → Int} {l : List α} (h : l ≠ []) :
    sortByKey k l ≠ [] := by
  cases l with
  | nil => exact absurd rfl h
  | cons a m => exact orderedInsert_ne_nil

/-- With an `ord`-ranked field present, `impl_ord` succeeds with a chain. -/
theorem impl_ord_ok_of_ranked {s : RichStructContent} {f : StructFieldContent}
    (hf : f ∈ s.fields) (hsome : (f.config.cmp.ord).isSome = true) :
    ∃ chain, StructCmpConfig.impl_ord s = .ok (.ordImpl chain) := by
  have hne : (s.fields.filterMap fun f => f.config.cmp.ord.map fun d => (f, d)) ≠ [] := by
    intro h0
    have := List.forall_none_of_filterMap_eq_nil h0 f hf
    rcases Option.isSome_iff_exists.mp hsome with ⟨d, hd⟩
    rw [hd] at this
    simp at this
  rcases List.exists_cons_of_ne_nil (sortByKey_ne_nil hne) with ⟨a, m, hsort⟩
  refine ⟨(a :: m).map fun p => p.1.ident, ?_⟩
  unfold StructCmpConfig.impl_ord
  rw [hsort]
  rfl

/-- With a `partial_ord`-ranked field present, `impl_partial_ord` succeeds
with a chain. -/
theorem impl_partial_ord_ok_of_ranked {s : RichStructContent} {f : StructFieldContent}
    (hf : f ∈ s.fields) (hsome : (f.config.cmp.partial_ord).isSome = true) :
    ∃ chain, StructCmpConfig.impl_partial_ord s = .ok (.pordChain chain) := by
  have hne : (s.fields.filterMap fun f => f.config.cmp.partial_ord.map fun d => (f, d)) ≠ [] := by
    intro h0
    have := List.forall_none_of_filterMap_eq_nil h0 f hf
    rcases Option.isSome_iff_exists.mp hsome with ⟨d, hd⟩
    rw [hd] at this
    simp at this
  rcases List.exists_cons_of_ne_nil (sortByKey_ne_nil hne) with ⟨a, m, hsort⟩
  refine ⟨(a :: m).map fun p => p.1.ident, ?_⟩
  unfold StructCmpConfig.impl_partial_ord
  rw [hsort]
  rfl

/-- C8: when `ord` generation is requested, ordering synthesis fails with
the no-orderable-field error precisely when no field carries an `ord`
rank, and succeeds — with the ordering member in the output — as soon as
one field is ranked. -/
theorem ord_requires_ranked_field :
    ∀ (s : RichStructContent),
      s.config.cmp.ord = true →
      ((∀ f ∈ s.fields, f.config.cmp.ord = none) →
          StructCmpConfig.impl_rich_ord s =
            .error ["at least one field can be `ord`ed if you want to derive `cmp.ord`"])
      ∧ ((∃ f ∈ s.fields, (f.config.cmp.ord).isSome = true) →
          ∃ ms chain, StructCmpConfig.impl_rich_ord s = .ok ms
            ∧ Member.ordImpl chain ∈ ms) := by
  intro s hord
  constructor
  · intro hall
    have hfm : (s.fields.filterMap fun f => f.config.cmp.ord.map fun d => (f, d)) = [] := by
      rw [List.filterMap_eq_nil_iff]
      intro f hf
      rw [hall f hf]
      rfl
    have hio : StructCmpConfig.impl_ord s =
        .error ["at least one field can be `ord`ed if you want to derive `cmp.ord`"] := by
      unfold StructCmpConfig.impl_ord
      rw [hfm]
      rfl
    unfold StructCmpConfig.impl_rich_ord
    rw [if_pos hord, hio]
    rfl
  · rintro ⟨f, hf, hsome⟩
    rcases impl_ord_ok_of_ranked hf hsome with ⟨chain, hio⟩
    unfold StructCmpConfig.impl_rich_ord
    rw [if_pos hord, hio]
    by_cases hcond : (s.config.cmp.ord && s.config.cmp.partial_ord
        && s.fields.all fun f => f.config.cmp.partial_ord.isNone) = true
    · refine ⟨[.ordImpl chain, .pordCoupled], chain, ?_, by simp⟩
      show (if (s.config.cmp.ord && s.config.cmp.partial_ord
          && s.fields.all fun f => f.config.cmp.partial_ord.isNone) = true
        then _ else _) = _
      rw [if_pos hcond]
      rfl
    · by_cases hpord : s.config.cmp.partial_ord = true
      · have hnall : (s.fields.all fun f => f.config.cmp.partial_ord.isNone) = false := by
          cases h : (s.fields.all fun f => f.config.cmp.partial_ord.isNone) with
          | false => rfl
          | true => exact absurd (by rw [hord, hpord, h]; rfl) hcond
        have hex : ∃ f ∈ s.fields, (f.config.cmp.partial_ord).isSome = true := by
          by_contra hno
          push_neg at hno
          have hall2 : (s.fields.all fun f => f.config.cmp.partial_ord.isNone) = true := by
            rw [List.all_eq_true]
            intro x hx
            have hx2 := hno x hx
            cases hv : x.config.cmp.partial_ord with
            | none => simp [Option.isNone]
            | some d => rw [hv] at hx2; simp at hx2
          rw [hall2] at hnall
          exact absurd hnall (by simp)
        rcases hex with ⟨g, hgmem, hgsome⟩
        rcases impl_partial_ord_ok_of_ranked hgmem hgsome with ⟨chain2, hpo⟩
        refine ⟨[.ordImpl chain, .pordChain chain2], chain, ?_, by simp⟩
        show (if (s.config.cmp.ord && s.config.cmp.partial_ord
            && s.fields.all fun f => f.config.cmp.partial_ord.isNone) = true
          then _ else _) = _
        rw [if_neg hcond, if_pos hpord, hpo]
        rfl
      · refine ⟨[.ordImpl chain], chain, ?_, by simp⟩
        show (if (s.config.cmp.ord && s.config.cmp.partial_ord
            && s.fields.all fun f => f.config.cmp.partial_ord.isNone) = true
          then _ else _) = _
        rw [if_neg hcond, if_neg hpord]

/-- The ranked-field requirement at `exOrdOne` (ordering requested, one
ranked field). -/
theorem ord_requires_ranked_field_witness :
    ((∀ f ∈ exOrdOne.fields, f.config.cmp.ord = none) →
        StructCmpConfig.impl_rich_ord exOrdOne =
          .error ["at least one field can be `ord`ed if you want to derive `cmp.ord`"])
    ∧ ((∃ f ∈ exOrdOne.fields, (f.config.cmp.ord).isSome = true) →
        ∃ ms chain, StructCmpConfig.impl_rich_ord exOrdOne = .ok ms
          ∧ Member.ordImpl chain ∈ ms) :=
  ord_requires_ranked_field exOrdOne rfl

/-- C7: when `ord` and `partial_ord` are both requested and no field sets
a partial-ordering rank, no independent partial-ordering chain is
generated — the single generated `PartialOrd` member is the coupled one,
and for every pair of instances the generated partial-order result is
`some` of the generated full-order result. -/
theorem coupled_partial_ord :
    ∀ (s : RichStructContent) (ms : List Member),
      s.config.cmp.ord = true →
      s.config.cmp.partial_ord = true →
      (∀ f ∈ s.fields, f.config.cmp.partial_ord = none) →
      StructCmpConfig.impl_rich_ord s = .ok ms →
      (Member.pordCoupled ∈ ms ∧ (∀ c, Member.pordChain c ∉ ms)
        ∧ ∀ a b : Inst, ∃ o, planOrd ms a b = some o
            ∧ planPord ms a b = some (some o)) := by
  intro s ms hord hpord hall h
  have hcond : (s.config.cmp.ord && s.config.cmp.partial_ord
      && s.fields.all fun f => f.config.cmp.partial_ord.isNone) = true := by
    rw [hord, hpord]
    simp only [Bool.true_and]
    rw [List.all_eq_true]
    intro f hf
    simp [hall f hf]
  unfold StructCmpConfig.impl_rich_ord at h
  rw [if_pos hord] at h
  cases hio : StructCmpConfig.impl_ord s with
  | error e => rw [hio] at h; simp [Except.map, Except.bind] at h
  | ok m =>
    rcases impl_ord_shape hio with ⟨chain, rfl⟩
    rw [hio] at h
    simp only [Except.map, Except.bind] at h
    rw [if_pos hcond] at h
    injection h with h2
    have hms : ms = [Member.ordImpl chain, Member.pordCoupled] := by
      rw [← h2]; rfl
    subst hms
    refine ⟨by simp, ?_, ?_⟩
    · intro c hc
      simp at hc
    · intro a b
      exact ⟨evalOrdChain a b chain, rfl, rfl⟩

/-- The coupling at `exCoupledOrd`: both orderings requested, one ranked
field, no partial rank anywhere. -/
theorem coupled_partial_ord_witness :
    Member.pordCoupled ∈ [Member.ordImpl ["x"], Member.pordCoupled]
      ∧ (∀ c, Member.pordChain c ∉ [Member.ordImpl ["x"], Member.pordCoupled])
      ∧ ∀ a b : Inst, ∃ o,
          planOrd [Member.ordImpl ["x"], Member.pordCoupled] a b = some o
          ∧ planPord [Member.ordImpl ["x"], Member.pordCoupled] a b = some (some o) :=
  coupled_partial_ord exCoupledOrd [Member.ordImpl ["x"], Member.pordCoupled] rfl rfl
    (by intro f hf; fin_cases hf <;> rfl) rfl

/-- When every field has a default expression, the construction body
exists. -/
theorem construct_of_can :
    ∀ (fields : List StructFieldContent),
      (fields.all fun f => f.config.default_value.isSome) = true →
      ∃ b, RichStructContent.impl_default_construct fields = some b := by
  intro fields
  induction fields with
  | nil => intro _; exact ⟨[], rfl⟩
  | cons f rest ih =>
    intro hall
    rw [List.all_cons, Bool.and_eq_true] at hall
    rcases Option.isSome_iff_exists.mp hall.1 with ⟨e, he⟩
    rcases ih hall.2 with ⟨tail, htail⟩
    refine ⟨(f.ident, e) :: tail, ?_⟩
    unfold RichStructContent.impl_default_construct
    rw [he, htail]
    rfl

/-- C9: when every field has a default expression and all three default
modes are requested, the plan holds the three default constructors built
from one shared construction body — the same default expressions in the
same resolved order — so under every expression semantics the three
construct field-by-field identical values. -/
theorem default_constructors_agree :
    ∀ (pex : ExprParse) (s : RichStructContent) (ms : List Member),
      s.can_impl_default = true →
      s.config.generate_default = true →
      s.config.const_default = true →
      s.config.impl_std_default = true →
      RichStructContent.to_impl pex s = .ok ms →
      ∃ b, RichStructContent.impl_default_construct s.fields = some b
        ∧ Member.dataDefault b ∈ ms
        ∧ Member.constDefault b ∈ ms
        ∧ Member.stdDefault b ∈ ms
        ∧ ∀ E : ExprEval,
            memberValues E (.dataDefault b) = memberValues E (.constDefault b)
            ∧ memberValues E (.constDefault b) = memberValues E (.stdDefault b) := by
  intro pex s ms hcan hgd hcd hsd h
  rcases construct_of_can s.fields hcan with ⟨b, hb⟩
  unfold RichStructContent.to_impl at h
  rcases exceptBindOk h with ⟨cmp_ms, hcmp, h2⟩
  rcases exceptMapOk h2 with ⟨ops_ms, hops, hms⟩
  subst hms
  have e1 : RichStructContent.impl_default s = [.dataDefault b] := by
    unfold RichStructContent.impl_default
    rw [hb]
  have e2 : RichStructContent.impl_const_default s = [.constDefault b] := by
    unfold RichStructContent.impl_const_default
    rw [hb]
  have e3 : RichStructContent.impl_std_default s = [.stdDefault b] := by
    unfold RichStructContent.impl_std_default
    rw [hb]
  refine ⟨b, hb, ?_, ?_, ?_, fun E => ⟨rfl, rfl⟩⟩ <;>
    simp [hcan, hgd, hcd, hsd, e1, e2, e3, List.mem_append]

/-- The agreement at the structure resolved from `exAllDefaults` (one field
defaulted through `default = "10"`, one through an inline initializer, all
three modes on). -/
theorem default_constructors_agree_witness :
    ∃ b, RichStructContent.impl_default_construct
        [⟨{ FieldConfig.start .no .no with default_value := some ⟨"10"⟩ }, "x"⟩,
         ⟨{ FieldConfig.start .no .no with default_value := some ⟨"x + 1"⟩ }, "y"⟩]
        = some b
      ∧ Member.dataDefault b ∈
          [Member.dataDefault [("x", ⟨"10"⟩), ("y", ⟨"x + 1"⟩)],
           Member.constDefault [("x", ⟨"10"⟩), ("y", ⟨"x + 1"⟩)],
           Member.stdDefault [("x", ⟨"10"⟩), ("y", ⟨"x + 1"⟩)]]
      ∧ Member.constDefault b ∈
          [Member.dataDefault [("x", ⟨"10"⟩), ("y", ⟨"x + 1"⟩)],
           Member.constDefault [("x", ⟨"10"⟩), ("y", ⟨"x + 1"⟩)],
           Member.stdDefault [("x", ⟨"10"⟩), ("y", ⟨"x + 1"⟩)]]
      ∧ Member.stdDefault b ∈
          [Member.dataDefault [("x", ⟨"10"⟩), ("y", ⟨"x + 1"⟩)],
           Member.constDefault [("x", ⟨"10"⟩), ("y", ⟨"x + 1"⟩)],
           Member.stdDefault [("x", ⟨"10"⟩), ("y", ⟨"x + 1"⟩)]]
      ∧ ∀ E : ExprEval,
          memberValues E (.dataDefault b) = memberValues E (.constDefault b)
          ∧ memberValues E (.constDefault b) = memberValues E (.stdDefault b) :=
  default_constructors_agree pexOk
    ⟨{ StructConfig.start with
        generate_default := true, const_default := true, impl_std_default := true },
      "Data",
      [⟨{ FieldConfig.start .no .no with default_value := some ⟨"10"⟩ }, "x"⟩,
       ⟨{ FieldConfig.start .no .no with default_value := some ⟨"x + 1"⟩ }, "y"⟩]⟩
    [Member.dataDefault [("x", ⟨"10"⟩), ("y", ⟨"x + 1"⟩)],
     Member.constDefault [("x", ⟨"10"⟩), ("y", ⟨"x + 1"⟩)],
     Member.stdDefault [("x", ⟨"10"⟩), ("y", ⟨"x + 1"⟩)]]
    rfl rfl rfl rfl rfl

/-- Inserting is a permutation. -/
theorem orderedInsert_perm (k : α → Int) (a : α) :
    ∀ l : List α, List.Perm (orderedInsert k a l) (a :: l) := by
  intro l
  induction l with
  | nil => exact List.Perm.refl _
  | cons b m ih =>
    rw [orderedInsert]
    by_cases h : k a ≤ k b
    · rw [if_pos h]
    · rw [if_neg h]
      exact (List.Perm.cons b ih).trans (List.Perm.swap a b m)

/-- Sorting is a permutation. -/
theorem sortByKey_perm (k : α → Int) :
    ∀ l : List α, List.Perm (sortByKey k l) l := by
  intro l
  induction l with
  | nil => exact List.Perm.refl _
  | cons a m ih =>
    exact (orderedInsert_perm k a (sortByKey k m)).trans (List.Perm.cons a ih)

/-- Inserting preserves sortedness by the key. -/
theorem orderedInsert_pairwise {k : α → Int} (a : α) :
    ∀ {l : List α}, List.Pairwise (fun x y => k x ≤ k y) l →
      List.Pairwise (fun x y => k x ≤ k y) (orderedInsert k a l) := by
  intro l h
  induction l with
  | nil => simp [orderedInsert]
  | cons b m ih =>
    rcases List.pairwise_cons.mp h with ⟨hb, hm⟩
    rw [orderedInsert]
    by_cases hab : k a ≤ k b
    · rw [if_pos hab]
      refine List.pairwise_cons.mpr ⟨?_, h⟩
      intro x hx
      rcases List.mem_cons.mp hx with rfl | hxm
      · exact hab
      · exact le_trans hab (hb x hxm)
    · rw [if_neg hab]
      refine List.pairwise_cons.mpr ⟨?_, ih hm⟩
      intro x hx
      rcases List.mem_cons.mp ((orderedInsert_perm k a m).mem_iff.mp hx) with rfl | hxm
      · exact le_of_not_le hab
      · exact hb x hxm

/-- The sort is sorted by the key. -/
theorem sortByKey_pairwise (k : α → Int) :
    ∀ l : List α, List.Pairwise (fun x y => k x ≤ k y) (sortByKey k l) := by
  intro l
  induction l with
  | nil => simp [sortByKey]
  | cons a m ih => exact orderedInsert_pairwise a ih

/-- Inserting an element of the key under scrutiny prepends it to the
filtered list: everything the insertion skips has a strictly smaller key. -/
theorem filter_orderedInsert {k : α → Int} {c : Int} {a : α} (h : k a = c) :
    ∀ l : List α, (orderedInsert k a l).filter (fun x => k x == c)
      = a :: l.filter (fun x => k x == c) := by
  intro l
  induction l with
  | nil => simp [orderedInsert, List.filter, h]
  | cons b m ih =>
    rw [orderedInsert]
    by_cases hab : k a ≤ k b
    · rw [if_pos hab]
      simp [List.filter_cons, h]
    · rw [if_neg hab]
      have hbc : (k b == c) = false := by
        have hlt : k b < k a := lt_of_not_le hab
        rw [h] at hlt
        simp [beq_eq_false_iff_ne]
        exact ne_of_lt hlt
      simp [List.filter_cons, hbc, ih]

/-- Inserting an element of another key leaves the filtered list alone. -/
theorem filter_orderedInsert_ne {k : α → Int} {c : Int} {a : α} (h : ¬ k a = c) :
    ∀ l : List α, (orderedInsert k a l).filter (fun x => k x == c)
      = l.filter (fun x => k x == c) := by
  intro l
  have hac : (k a == c) = false := by
    simp [beq_eq_false_iff_ne]
    exact h
  induction l with
  | nil => simp [orderedInsert, List.filter, hac]
  | cons b m ih =>
    rw [orderedInsert]
    by_cases hab : k a ≤ k b
    · rw [if_pos hab]
      simp [List.filter_cons, hac]
    · rw [if_neg hab]
      simp [List.filter_cons, ih]

/-- Stability: the sort preserves, for every key value, the relative order
of the elements carrying that key. -/
theorem sortByKey_filter (k : α → Int) :
    ∀ (l : List α) (c : Int),
      (sortByKey k l).filter (fun x => k x == c) = l.filter (fun x => k x == c) := by
  intro l
  induction l with
  | nil => intro c; rfl
  | cons a m ih =>
    intro c
    show (orderedInsert k a (sortByKey k m)).filter (fun x => k x == c) = _
    by_cases hc : k a = c
    · rw [filter_orderedInsert hc, ih c]
      simp [List.filter_cons, hc]
    · rw [filter_orderedInsert_ne hc, ih c]
      have hac : (k a == c) = false := by
        simp [beq_eq_false_iff_ne]
        exact hc
      simp [List.filter_cons, hac]

/-- The keys attached by the enumerated resolution loop are the effective
sequence keys: explicit `seq` when present, declaration index otherwise. -/
theorem resolveKeyed_keys :
    ∀ (pex : ExprParse) (dset : SetterType) (dget : GetterType)
      (fields : List StructField) (idx : Nat) (keyed : List (StructFieldContent × Int)),
      resolveKeyed pex dset dget idx fields = .ok keyed →
      ∀ (i : Nat) (h : i < keyed.length),
        (keyed.get ⟨i, h⟩).2 =
          (keyed.get ⟨i, h⟩).1.config.init_seq.getD ((idx : Int) + (i : Int)) := by
  intro pex dset dget fields
  induction fields with
  | nil =>
    intro idx keyed hk
    injection hk with h0
    subst h0
    intro i hi
    exact absurd hi (by simp)
  | cons f rest ih =>
    intro idx keyed hk
    unfold resolveKeyed at hk
    rcases exceptBindOk hk with ⟨c, hc, hk2⟩
    rcases exceptMapOk hk2 with ⟨tail, htail, hkeyed⟩
    subst hkeyed
    intro i hi
    cases i with
    | zero => simp
    | succ j =>
      have hj : j < tail.length := by simpa using hi
      have := ih (idx + 1) tail htail j hj
      show (tail.get ⟨j, hj⟩).2 = _
      rw [this]
      congr 1
      push_cast
      ring

/-- A successful `from_syntax` factors through the keyed resolution and the
stable sort. -/
theorem fromSyn_decomp :
    ∀ (pex : ExprParse) (s : RichStruct) (cont : RichStructContent),
      RichStructContent.fromSyn pex s = .ok cont →
      ∃ cfg keyed, StructConfig.fromAttribute s.attrs = .ok cfg
        ∧ resolveKeyed pex cfg.override_auto_set cfg.override_auto_get 0 s.fields = .ok keyed
        ∧ cont.fields = (sortByKey Prod.snd keyed).map Prod.fst := by
  intro pex s cont h
  unfold RichStructContent.fromSyn at h
  rcases exceptBindOk h with ⟨cfg, hcfg, h2⟩
  rcases exceptMapOk h2 with ⟨keyed, hkeyed, hcont⟩
  subst hcont
  exact ⟨cfg, keyed, hcfg, hkeyed, rfl⟩

/-- C5: the resolved field order is the stable sort of the declared fields
by effective sequence key.  The sort used by `from_syntax` is a permutation
that is sorted by the key and preserves, for each key value, the
declaration order of the fields carrying it; the key of the i-th declared
field is its explicit `seq` when given and its declaration index
otherwise; and for fields `[a(seq = 0), b(seq = -1)]` the resolved order
is `[b, a]`. -/
theorem stable_sort_by_seq :
    (∀ (l : List (StructFieldContent × Int)),
        List.Perm (sortByKey Prod.snd l) l
        ∧ List.Pairwise (fun x y => x.2 ≤ y.2) (sortByKey Prod.snd l)
        ∧ ∀ c : Int, (sortByKey Prod.snd l).filter (fun x => x.2 == c)
            = l.filter (fun x => x.2 == c))
    ∧ (∀ (pex : ExprParse) (s : RichStruct) (cont : RichStructContent),
        RichStructContent.fromSyn pex s = .ok cont →
        ∃ cfg keyed, StructConfig.fromAttribute s.attrs = .ok cfg
          ∧ resolveKeyed pex cfg.override_auto_set cfg.override_auto_get 0 s.fields = .ok keyed
          ∧ cont.fields = (sortByKey Prod.snd keyed).map Prod.fst
          ∧ ∀ (i : Nat) (h : i < keyed.length),
              (keyed.get ⟨i, h⟩).2 =
                (keyed.get ⟨i, h⟩).1.config.init_seq.getD (i : Int))
    ∧ ((RichStructContent.fromSyn pexOk exSeqSwap).map (fun c => c.fields.map (·.ident))
        = .ok ["b", "a"]) := by
  refine ⟨?_, ?_, ?_⟩
  · intro l
    exact ⟨sortByKey_perm Prod.snd l, sortByKey_pairwise Prod.snd l,
      sortByKey_filter Prod.snd l⟩
  · intro pex s cont h
    rcases fromSyn_decomp pex s cont h with ⟨cfg, keyed, hcfg, hkeyed, hfields⟩
    refine ⟨cfg, keyed, hcfg, hkeyed, hfields, ?_⟩
    intro i hi
    have := resolveKeyed_keys pex cfg.override_auto_set cfg.override_auto_get
      s.fields 0 keyed hkeyed i hi
    simpa using this
  · rfl

/-- The stable sort at the declared fields `[a(seq = 0), b(seq = -1)]`. -/
theorem stable_sort_by_seq_witness :
    ∃ cfg keyed, StructConfig.fromAttribute exSeqSwap.attrs = .ok cfg
      ∧ resolveKeyed pexOk cfg.override_auto_set cfg.override_auto_get 0 exSeqSwap.fields
          = .ok keyed
      ∧ ((sortByKey Prod.snd keyed).map Prod.fst).map (·.ident) = ["b", "a"] := by
  rcases stable_sort_by_seq.2.1 pexOk exSeqSwap
      ⟨StructConfig.start, "Data",
        [⟨{ FieldConfig.start .no .no with init_seq := some (-1) }, "b"⟩,
         ⟨{ FieldConfig.start .no .no with init_seq := some 0 }, "a"⟩]⟩ rfl
    with ⟨cfg, keyed, hcfg, hkeyed, hfields, _⟩
  exact ⟨cfg, keyed, hcfg, hkeyed, by rw [← hfields]; rfl⟩

/-- The per-field plain-form expression always succeeds when the external
parser accepts every template. -/
theorem implOps_pexOk_ok (op : OpsOperationType) (fam : OpsType) (i : String) :
    ∃ v, OpsOperationType.implOps pexOk op fam i = .ok v := by
  cases op <;> exact ⟨_, rfl⟩

/-- The per-field in-place-form statement always succeeds when the external
parser accepts every template. -/
theorem implOpsAssign_pexOk_ok (op : OpsOperationType) (fam : OpsType) (i : String) :
    ∃ v, OpsOperationType.implOpsAssign pexOk op fam i = .ok v := by
  cases op <;> exact ⟨_, rfl⟩

/-- A list of successes partitions with no failures. -/
theorem partitionExcept_errs_nil :
    ∀ (l : List (Except SynError β)), (∀ x ∈ l, ∃ v, x = .ok v) →
      (partitionExcept l).2 = [] := by
  intro l
  induction l with
  | nil => intro _; rfl
  | cons x rest ih =>
    intro h
    rcases h x (by simp) with ⟨v, rfl⟩
    show (partitionExcept rest).2 = []
    exact ih fun y hy => h y (by simp [hy])

/-- With the all-accepting parser, plain-form generation succeeds. -/
theorem implPlain_pexOk_ok (fam : OpsType) (s : RichStructContent) :
    ∃ l, StructOpsConfig.implPlain pexOk fam s = .ok (.opsPlain fam l) := by
  have h2 : (partitionExcept
      (s.fields.map fun f =>
        (((f.config.ops.famPlain fam).getD OpsOperationType.init).implOps pexOk fam f.ident).map
          fun e => (f.ident, e))).2 = [] := by
    apply partitionExcept_errs_nil
    intro x hx
    rcases List.mem_map.mp hx with ⟨f, hf, rfl⟩
    rcases implOps_pexOk_ok ((f.config.ops.famPlain fam).getD OpsOperationType.init) fam
      f.ident with ⟨v, hv⟩
    exact ⟨(f.ident, v), by rw [hv]; rfl⟩
  refine ⟨(partitionExcept
      (s.fields.map fun f =>
        (((f.config.ops.famPlain fam).getD OpsOperationType.init).implOps pexOk fam f.ident).map
          fun e => (f.ident, e))).1, ?_⟩
  show (joinOpsResults
      (partitionExcept
        (s.fields.map fun f =>
          (((f.config.ops.famPlain fam).getD OpsOperationType.init).implOps
              pexOk fam f.ident).map fun e => (f.ident, e))).1
      (partitionExcept
        (s.fields.map fun f =>
          (((f.config.ops.famPlain fam).getD OpsOperationType.init).implOps
              pexOk fam f.ident).map fun e => (f.ident, e))).2).map
      (Member.opsPlain fam ·) = _
  rw [h2]
  rfl

/-- With the all-accepting parser, in-place-form generation succeeds. -/
theorem implAssign_pexOk_ok (fam : OpsType) (s : RichStructContent) :
    ∃ l, StructOpsConfig.implAssign pexOk fam s = .ok (.opsAssign fam l) := by
  have h2 : (partitionExcept
      (s.fields.map fun f =>
        ((f.config.ops.famAssign fam).getD OpsOperationType.init).implOpsAssign
          pexOk fam f.ident)).2 = [] := by
    apply partitionExcept_errs_nil
    intro x hx
    rcases List.mem_map.mp hx with ⟨f, hf, rfl⟩
    exact implOpsAssign_pexOk_ok ((f.config.ops.famAssign fam).getD OpsOperationType.init)
      fam f.ident
  refine ⟨(partitionExcept
      (s.fields.map fun f =>
        ((f.config.ops.famAssign fam).getD OpsOperationType.init).implOpsAssign
          pexOk fam f.ident)).1, ?_⟩
  show (joinOpsResults
      (partitionExcept
        (s.fields.map fun f =>
          ((f.config.ops.famAssign fam).getD OpsOperationType.init).implOpsAssign
            pexOk fam f.ident)).1
      (partitionExcept
        (s.fields.map fun f =>
          ((f.config.ops.famAssign fam).getD OpsOperationType.init).implOpsAssign
            pexOk fam f.ident)).2).map
      (Member.opsAssign fam ·) = _
  rw [h2]
  rfl

/-- One family step appends exactly the members the structure-level policy
requests for that family. -/
theorem opsFamilyStep_char (s : RichStructContent) (fam g : OpsType) (ts : List Member) :
    ∃ blk, StructOpsConfig.opsFamilyStep pexOk s (ts, none) fam = (ts ++ blk, none)
      ∧ hasOpsPlain blk g
          = (decide (fam = g) && plainRequested (s.config.ops.famGet fam))
      ∧ hasOpsAssign blk g
          = (decide (fam = g) && assignRequested (s.config.ops.famGet fam)) := by
  rcases implPlain_pexOk_ok fam s with ⟨lp, hp⟩
  rcases implAssign_pexOk_ok fam s with ⟨la, ha⟩
  unfold StructOpsConfig.opsFamilyStep
  cases hfg : s.config.ops.famGet fam with
  | none =>
    exact ⟨[], by simp, by simp [hasOpsPlain, plainRequested],
      by simp [hasOpsAssign, assignRequested]⟩
  | some v =>
    cases v with
    | both =>
      refine ⟨[.opsPlain fam lp, .opsAssign fam la], ?_, ?_, ?_⟩
      · simp [StructOpsConfig.opsAccum, hp, ha]
      · simp [hasOpsPlain, plainRequested]
      · simp [hasOpsAssign, assignRequested]
    | plain =>
      refine ⟨[.opsPlain fam lp], ?_, ?_, ?_⟩
      · simp [StructOpsConfig.opsAccum, hp]
      · simp [hasOpsPlain, plainRequested]
      · simp [hasOpsAssign, assignRequested]
    | assign =>
      refine ⟨[.opsAssign fam la], ?_, ?_, ?_⟩
      · simp [StructOpsConfig.opsAccum, ha]
      · simp [hasOpsPlain, plainRequested]
      · simp [hasOpsAssign, assignRequested]

/-- `hasOpsPlain` distributes over append. -/
theorem hasOpsPlain_append (l1 l2 : List Member) (g : OpsType) :
    hasOpsPlain (l1 ++ l2) g = (hasOpsPlain l1 g || hasOpsPlain l2 g) :=
  List.any_append

/-- `hasOpsAssign` distributes over append. -/
theorem hasOpsAssign_append (l1 l2 : List Member) (g : OpsType) :
    hasOpsAssign (l1 ++ l2) g = (hasOpsAssign l1 g || hasOpsAssign l2 g) :=
  List.any_append

/-- The family fold emits, for each form and family, exactly what the
structure-level policy requests over the families traversed. -/
theorem impl_ops_fold_char (s : RichStructContent) (g : OpsType) :
    ∀ (fams : List OpsType) (ts : List Member),
      ∃ ms2, fams.foldl (StructOpsConfig.opsFamilyStep pexOk s) (ts, none) = (ts ++ ms2, none)
        ∧ hasOpsPlain ms2 g
            = (fams.any fun fam => decide (fam = g) && plainRequested (s.config.ops.famGet fam))
        ∧ hasOpsAssign ms2 g
            = (fams.any fun fam => decide (fam = g) && assignRequested (s.config.ops.famGet fam)) := by
  intro fams
  induction fams with
  | nil => intro ts; exact ⟨[], by simp, rfl, rfl⟩
  | cons fam rest ih =>
    intro ts
    rcases opsFamilyStep_char s fam g ts with ⟨blk, hstep, hbp, hba⟩
    rcases ih (ts ++ blk) with ⟨ms2, hfold, hmp, hma⟩
    refine ⟨blk ++ ms2, ?_, ?_, ?_⟩
    · rw [List.foldl_cons, hstep, hfold, List.append_assoc]
    · rw [hasOpsPlain_append, hbp, hmp, List.any_cons]
    · rw [hasOpsAssign_append, hba, hma, List.any_cons]

/-- C6 (amended): an operator-family implementation is emitted iff the
structure-level `ops` policy declares that family with the matching form;
field-level settings alone never cause emission (when a family is emitted,
every field participates, unset slots defaulting to `Inherit`). -/
theorem ops_families_from_struct_config :
    ∀ (s : RichStructContent) (fam : OpsType),
      ∃ ms, StructOpsConfig.impl_ops pexOk s = .ok ms
        ∧ hasOpsPlain ms fam = plainRequested (s.config.ops.famGet fam)
        ∧ hasOpsAssign ms fam = assignRequested (s.config.ops.famGet fam) := by
  intro s fam
  rcases impl_ops_fold_char s fam [OpsType.add, .sub, .mul, .div] [] with
    ⟨ms2, hfold, hmp, hma⟩
  refine ⟨ms2, ?_, ?_, ?_⟩
  · unfold StructOpsConfig.impl_ops
    rw [hfold]
    rfl
  · rw [hmp]
    cases fam <;> simp
  · rw [hma]
    cases fam <;> simp

/-- C6 (counterexample): a field that explicitly opts into the `add` family
(`Inherit`) on a structure whose `ops` policy declares nothing produces an
empty operator member set — the family is silently absent despite a
participating field. -/
theorem field_only_ops_not_emitted :
    StructOpsConfig.impl_ops pexOk exFieldOnlyAdd = .ok []
      ∧ (exFieldOnlyAdd.fields.any fun f => (f.config.ops.famPlain .add).isSome) = true :=
  ⟨rfl, rfl⟩

end DS
